import Mathlib

/-!
# GardenLights: a shallow embedding of `src/main.cpp`

The sketch is single threaded.  Its global variables become the fields of
`State`; the answers of the external collaborators (RTC, Time library,
serial port) during one call become the fields of `Env`; the calls the
sketch makes on a collaborator to act or to print are appended to
`State.log` as an `Effect`, in program order (the configuration calls of
`setup` leave no entry).  A write to `inputBuffer` outside the array makes
`readInput` and `loop` return `none`.

C `int` values are embedded as `Int`: signed overflow is undefined in C, and
with HHmm entries in the sunrise table every value computed stays far below
`2 ^ 15`.  The operators `/` and `%` of C are `Int.tdiv` and `Int.tmod`.  C
`byte` values are embedded as `Nat`, reduced `% 256` where the source converts
an `int` to a `byte`.
-/

namespace GardenLights

/-! ## Constants of the sketch -/

def CHECK_LIGHTS_SECONDS : Nat := 60
def TEMP_WARN : Int := 50
def TEMP_CRITICAL : Int := 70
def TEMP_SHUTDOWN : Int := 80
def MAX_INPUT_LEN : Nat := 31
def FIXED_OFF_TIME_EEADDR : Nat := 0
def FIXED_OFF_TIME_DISABLED : Nat := 255
def XTRA_MINUTES_EEADDR : Nat := 1
def BAD_INPUT : String := "Bad input."

/-! ## Collaborators -/

/-- The two output pins the sketch drives. -/
inductive Pin where
  | LED_PIN
  | LIGHTS_PIN
  deriving DecidableEq, Repr

/-- Result of `timeStatus()` of the Time library. -/
inductive TimeStatus where
  | timeNotSet
  | timeNeedsSync
  | timeSet
  deriving DecidableEq, Repr

/-- One call on an external collaborator. -/
inductive Effect where
  /-- The call `digitalWrite(pin, level)`; `true` is `HIGH`. -/
  | digitalWrite (pin : Pin) (level : Bool)
  /-- The call `Serial.println(s)`. -/
  | println (s : String)
  /-- The call `Serial.print(s)`. -/
  | print (s : String)
  /-- The pair `snprintf(msg, MSG_BUFF_LEN, fmt, args...)`, `Serial.println(msg)`. -/
  | printf (fmt : String) (args : List Int)
  /-- The call `toneAC(frequency, volume, length)`. -/
  | toneAC (frequency volume length : Nat)
  /-- The call `EEPROM.update(idxAddr, value)`. -/
  | eepromUpdate (idxAddr : Nat) (value : Nat)
  /-- The calls `setTime(makeTime(tm))` and `RTC.set(makeTime(tm))`. -/
  | setClock (cyear cmonth cdate chour cmin csec : Int)
  deriving DecidableEq, Repr

/-- A broken-down `time_t`, as read through `year(t)`, ..., `second(t)`. -/
structure Timestamp where
  year : Int
  month : Int
  day : Int
  hour : Int
  minute : Int
  second : Int
  deriving DecidableEq, Repr

/-- What the collaborators answer while one handler runs. -/
structure Env where
  /-- Value of `RTC.temperature()`, in quarter degrees. -/
  rtcTemperature : Int
  /-- Value of `timeStatus()`. -/
  timeStatus : TimeStatus
  /-- Value of `now()`. -/
  now : Timestamp
  /-- Value returned by `RTC.set`. -/
  rtcSetResult : Nat
  /-- Value of `timeStatus()` after `setTime`. -/
  timeStatusAfterSet : TimeStatus
  /-- Value of `now()` after `setTime`. -/
  nowAfterSet : Timestamp
  /-- Value the `k`-th `int` local of a handler holds before `sscanf` assigns it. -/
  uninit : Nat → Int

/-! ## Program state -/

/-- The global variables of the sketch, the levels of its output pins, the
EEPROM and the log of collaborator calls. -/
structure State where
  /-- The array `char inputBuffer[MAX_INPUT_LEN + 1]`. -/
  inputBuffer : List Char
  /-- The `static int ndx` of `readInput`. -/
  ndx : Int
  fixedOffTimeOffset : Nat
  xtraMinutes : Nat
  coolingOff : Bool
  lastCheckMillis : Nat
  nowMillis : Nat
  /-- Level of `LIGHTS_PIN`. -/
  lightsPin : Bool
  /-- Level of `LED_PIN`. -/
  ledPin : Bool
  /-- Content of the EEPROM, by address. -/
  eeprom : Nat → Nat
  /-- Calls made on the collaborators so far, oldest first. -/
  log : List Effect

/-- Append one collaborator call to the log. -/
def emit (e : Effect) (s : State) : State :=
  { s with log := s.log ++ [e] }

/-- The function `digitalWrite`: sets the level of the pin. -/
def digitalWrite (pin : Pin) (level : Bool) (s : State) : State :=
  match pin with
  | Pin.LED_PIN => emit (Effect.digitalWrite pin level) { s with ledPin := level }
  | Pin.LIGHTS_PIN => emit (Effect.digitalWrite pin level) { s with lightsPin := level }

/-- The function `toneAC`, called `n` times in a row (the `for` loops of `checkTemp`). -/
def toneTimes : Nat → Nat → Nat → Nat → State → State
  | 0, _, _, _, s => s
  | n + 1, f, v, l, s => toneTimes n f v l (emit (Effect.toneAC f v l) s)

/-- The function `lightsOn`. -/
def lightsOn (s : State) : State :=
  emit (Effect.println "Lights on.")
    (digitalWrite Pin.LIGHTS_PIN true (digitalWrite Pin.LED_PIN true s))

/-- The function `lightsOff`. -/
def lightsOff (s : State) : State :=
  emit (Effect.println "Lights off.")
    (digitalWrite Pin.LED_PIN false (digitalWrite Pin.LIGHTS_PIN false s))

/-- The function `getTemp`: `RTC.temperature() / 4`. -/
def getTemp (env : Env) : Int :=
  Int.tdiv env.rtcTemperature 4

/-- The function `checkTemp`: returns whether lighting is authorised. -/
def checkTemp (env : Env) (s : State) : Bool × State :=
  let temp := getTemp env
  if temp ≥ TEMP_SHUTDOWN then
    let s1 := lightsOff s
    let s2 := { s1 with coolingOff := true }
    (false, toneTimes 6 1200 10 300 s2)
  else if temp ≥ TEMP_CRITICAL then
    let s1 := toneTimes 4 1200 10 600 s
    (!s1.coolingOff, s1)
  else if temp ≥ TEMP_WARN then
    let s1 := toneTimes 2 1200 10 1000 s
    (!s1.coolingOff, s1)
  else
    (true, { s with coolingOff := false })

/-- Successive evaluations of `checkTemp`, one per entry of `envs`: the list of
(returned value, `coolingOff` afterwards) and the final state. -/
def checkTempRun : List Env → State → List (Bool × Bool) × State
  | [], s => ([], s)
  | env :: envs, s =>
    let r := checkTemp env s
    let rest := checkTempRun envs r.2
    ((r.1, r.2.coolingOff) :: rest.1, rest.2)

/-- Number of writes to `LIGHTS_PIN` in a list of collaborator calls. -/
def actuations (l : List Effect) : Nat :=
  (l.filter (fun e => match e with
    | Effect.digitalWrite Pin.LIGHTS_PIN _ => true
    | _ => false)).length

/-! ## Sunrise table and lights window -/

/-- The table `SunRiseSet` of `main.h`, which is not part of the sources at
hand: it is a parameter of every function that reads it.  `tbl i j k` is the
value of `pgm_read_word(&SunRiseSet[i][j][k])`, with `k = 0` the sunrise and
`k = 1` the sunset, both HHmm. -/
abbrev SunRiseSetTable := Int → Int → Int → Int

/-- The struct `TimeInfo` of `main.h`, which is not part of the sources at
hand: the four fields `getTimeInfo` assigns, as `int` (`printInfo` passes
their quotients and remainders to `%02d`). -/
structure TimeInfo where
  LightsOff : Int
  SunRise : Int
  LightsOn : Int
  SunSet : Int
  deriving DecidableEq, Repr

/-- The function `time2Offset`: HHmm to minutes after midnight. -/
def time2Offset (HHmm : Int) : Int :=
  (Int.tdiv HHmm 100) * 60 + (Int.tmod HHmm 100)

/-- The function `offset2Time`: minutes after midnight to HHmm. -/
def offset2Time (offsetMinutes : Int) : Int :=
  (Int.tdiv offsetMinutes 60) * 100 + (Int.tmod offsetMinutes 60)

/-- The function `getTimeInfo`. -/
def getTimeInfo (tbl : SunRiseSetTable) (s : State) (cmonth cdate : Int) : TimeInfo :=
  let sunRise := tbl (cmonth - 1) (cdate - 1) 0
  let sunSet := tbl (cmonth - 1) (cdate - 1) 1
  let ti : TimeInfo := { LightsOff := sunRise, SunRise := sunRise, LightsOn := sunSet, SunSet := sunSet }
  -- adjust time with extra minutes
  let ti :=
    if s.xtraMinutes > 0 then
      { ti with
        LightsOff := offset2Time (time2Offset ti.LightsOff + (s.xtraMinutes : Int)),
        LightsOn := offset2Time (time2Offset ti.LightsOn - (s.xtraMinutes : Int)) }
    else ti
  -- lights off time could be fixed time
  if s.fixedOffTimeOffset ≠ FIXED_OFF_TIME_DISABLED then
    { ti with LightsOff := offset2Time (s.fixedOffTimeOffset : Int) }
  else ti

/-- The function `isValidDate`. -/
def isValidDate (cmonth cdate : Int) : Bool :=
  !(decide (cmonth < 1) || decide (cmonth > 12)
    || decide (cdate < 1) || decide (cdate > 31)
    || (decide (cdate > 30)
        && (decide (cmonth = 4) || decide (cmonth = 6) || decide (cmonth = 9) || decide (cmonth = 11)))
    || (decide (cdate > 29) && decide (cmonth = 2)))

/-- The function `isValidTime`. -/
def isValidTime (chour cmin csec : Int) : Bool :=
  decide (chour ≥ 0) && decide (chour ≤ 23)
    && decide (cmin ≥ 0) && decide (cmin ≤ 59)
    && decide (csec ≥ 0) && decide (csec ≤ 59)

/-- An HHmm value with hour in 0..23 and minute in 0..59. -/
def ValidHHmm (h : Int) : Prop :=
  0 ≤ h ∧ h / 100 ≤ 23 ∧ h % 100 ≤ 59

instance (h : Int) : Decidable (ValidHHmm h) := by
  unfold ValidHHmm
  infer_instance

/-- The function `timeNotSetNotice`. -/
def timeNotSetNotice (s : State) : State :=
  emit (Effect.toneAC 400 10 400) (emit (Effect.toneAC 600 10 600) s)

/-- The function `checkLights`. -/
def checkLights (tbl : SunRiseSetTable) (env : Env) (s : State) : State :=
  if TimeStatus.timeSet ≠ env.timeStatus then
    timeNotSetNotice (emit (Effect.println "Can't check lights: time has not been set.") s)
  else
    let t := env.now
    let cmonth := t.month
    let cdate := t.day
    let ti := getTimeInfo tbl s cmonth cdate
    let ctime := t.hour * 100 + t.minute
    if ti.LightsOff ≤ ctime ∧ ctime ≤ ti.LightsOn then
      lightsOff s
    else
      lightsOn s

/-- The periodic branch of `loop`: `if(checkTemp()) checkLights();` followed by
`lastCheckMillis = nowMillis`. -/
def loopCheck (tbl : SunRiseSetTable) (env : Env) (s : State) : State :=
  let r := checkTemp env s
  let s1 := if r.1 then checkLights tbl env r.2 else r.2
  { s1 with lastCheckMillis := s1.nowMillis }

/-! ## Command protocol -/

/-- The NUL character that terminates a C string. -/
def NUL : Char := Char.ofNat 0

/-- The C string that starts at the head of a character array: the characters
before the first NUL. -/
def cstr (buf : List Char) : List Char :=
  buf.takeWhile (fun c => c ≠ NUL)

/-- The function `strlen` of the C library. -/
def strlen (buf : List Char) : Int :=
  ((cstr buf).length : Int)

/-- The function `isspace` of the C library. -/
def isspace (c : Char) : Bool :=
  c = ' ' || c = '\t' || c = '\n' || c = Char.ofNat 11 || c = Char.ofNat 12 || c = '\r'

/-- Reads at most `w` decimal digits: the value read so far, the number of
digits read, and the rest of the input. -/
def scanDigits : Nat → List Char → Nat → Nat → Nat × Nat × List Char
  | 0, cs, acc, n => (acc, n, cs)
  | _ + 1, [], acc, n => (acc, n, [])
  | w + 1, c :: cs, acc, n =>
    if c.isDigit then scanDigits w cs (acc * 10 + (c.toNat - 48)) (n + 1)
    else (acc, n, c :: cs)

/-- One `%d` conversion of `sscanf` with an optional maximum field width:
skips white space, reads an optional sign and decimal digits, and fails when
no digit is read.  Returns the value and the rest of the input. -/
def scanInt (width : Option Nat) (input : List Char) : Option (Int × List Char) :=
  let cs := input.dropWhile isspace
  let w := width.getD cs.length
  match cs with
  | [] => none
  | c :: rest =>
    if c = '-' ∨ c = '+' then
      let r := scanDigits (w - 1) rest 0 0
      if r.2.1 = 0 then none
      else some (if c = '-' then -(r.1 : Int) else (r.1 : Int), r.2.2)
    else
      let r := scanDigits w (c :: rest) 0 0
      if r.2.1 = 0 then none
      else some ((r.1 : Int), r.2.2)

/-- The function `sscanf` on a format made of `%d` conversions only, given by
their widths: the values assigned, in order, up to the first conversion that
fails. -/
def sscanfInts : List (Option Nat) → List Char → List Int
  | [], _ => []
  | w :: ws, cs =>
    match scanInt w cs with
    | none => []
    | some (v, rest) => v :: sscanfInts ws rest

/-- Value of the `k`-th `int` local after `sscanf`: the value assigned, or what
the uninitialised local held. -/
def scanned (env : Env) (vals : List Int) (k : Nat) : Int :=
  (vals.get? k).getD (env.uninit k)

/-- Conversion of an `int` to a `byte`. -/
def toByte (v : Int) : Nat :=
  (v % 256).toNat

/-- The function `storeEeprom`: `EEPROM.update(idxAddr, value)`, returns `value`. -/
def storeEeprom (idxAddr : Nat) (value : Nat) (s : State) : Nat × State :=
  (value,
    emit (Effect.eepromUpdate idxAddr value)
      { s with eeprom := fun a => if a = idxAddr then value else s.eeprom a })

/-- The function `loadEeprom`. -/
def loadEeprom (idxAddr : Nat) (s : State) : Nat :=
  s.eeprom idxAddr

/-- The string `COMPILE_DATETIME`, fixed when the sketch is built. -/
def COMPILE_DATETIME : String := "__DATE__ __TIME__"

/-- The function `printHelp`. -/
def printHelp (s : State) : State :=
  let s := emit (Effect.print "GardenLights, ") s
  let s := emit (Effect.println COMPILE_DATETIME) s
  let s := emit (Effect.println "h: Help.") s
  let s := emit (Effect.println "i[yyyyMMdd]: Date info.") s
  let s := emit (Effect.println "tyyyyMMddHHmmss: Set time and date.") s
  let s := emit (Effect.println "f[mmm]: Fixed off time.") s
  emit (Effect.println "x[mmm]: Extra minutes.") s

/-- The function `printTime`. -/
def printTime (t : Timestamp) (s : State) : State :=
  emit (Effect.printf "It is %04d-%02d-%02d %02d:%02d:%02d"
    [t.year, t.month, t.day, t.hour, t.minute, t.second]) s

/-- The function `printFixedOffTime`. -/
def printFixedOffTime (s : State) : State :=
  let s := emit (Effect.print "Fixed off time set to ") s
  if s.fixedOffTimeOffset = FIXED_OFF_TIME_DISABLED then
    emit (Effect.println "\'disabled\'.") s
  else
    let hour : Int := ((s.fixedOffTimeOffset / 60 : Nat) : Int)
    let minute : Int := ((s.fixedOffTimeOffset % 60 : Nat) : Int)
    emit (Effect.printf "%02d:%02d" [hour, minute]) s

/-- The report of `printInfo`, from `getTimeInfo` on. -/
def printInfoReport (tbl : SunRiseSetTable) (env : Env) (t : Timestamp)
    (cyear cmonth cdate : Int) (s : State) : State :=
  let ti := getTimeInfo tbl s cmonth cdate
  let s := printTime t s
  let s := emit (Effect.printf "For     %04d-%02d-%02d" [cyear, cmonth, cdate]) s
  let s := emit (Effect.printf "Sunrise %02d:%02d"
    [Int.tdiv ti.SunRise 100, Int.tmod ti.SunRise 100]) s
  let s := emit (Effect.printf "Sunset  %02d:%02d"
    [Int.tdiv ti.SunSet 100, Int.tmod ti.SunSet 100]) s
  let s := printFixedOffTime s
  let s := emit (Effect.printf "Extra minutes %d" [(s.xtraMinutes : Int)]) s
  let s := emit (Effect.printf "Lights Off %02d:%02d"
    [Int.tdiv ti.LightsOff 100, Int.tmod ti.LightsOff 100]) s
  let s := emit (Effect.printf "Lights On  %02d:%02d"
    [Int.tdiv ti.LightsOn 100, Int.tmod ti.LightsOn 100]) s
  emit (Effect.printf "Temp %d C" [getTemp env]) s

/-- The function `printInfo`. -/
def printInfo (tbl : SunRiseSetTable) (env : Env) (s : State) : State :=
  let inputLen := strlen s.inputBuffer
  if 1 ≠ inputLen ∧ 9 ≠ inputLen then
    emit (Effect.println BAD_INPUT) s
  else if TimeStatus.timeSet ≠ env.timeStatus then
    emit (Effect.println "Time has not been set.") s
  else
    let t := env.now
    if 1 = inputLen then
      printInfoReport tbl env t t.year t.month t.day s
    else if 9 = inputLen then
      let vals := sscanfInts [some 4, some 2, some 2] (cstr (s.inputBuffer.drop 1))
      let cyear := scanned env vals 0
      let cmonth := scanned env vals 1
      let cdate := scanned env vals 2
      if !isValidDate cmonth cdate then
        emit (Effect.println BAD_INPUT) s
      else
        printInfoReport tbl env t cyear cmonth cdate s
    else
      printInfoReport tbl env t (env.uninit 0) (env.uninit 1) (env.uninit 2) s

/-- The function `setTime` of the sketch. -/
def setTime (env : Env) (s : State) : State :=
  let inputLen := strlen s.inputBuffer
  if 15 ≠ inputLen then
    emit (Effect.println BAD_INPUT) s
  else
    let vals := sscanfInts [some 4, some 2, some 2, some 2, some 2, some 2]
      (cstr (s.inputBuffer.drop 1))
    let cyear := scanned env vals 0
    let cmonth := scanned env vals 1
    let cdate := scanned env vals 2
    let chour := scanned env vals 3
    let cmin := scanned env vals 4
    let csec := scanned env vals 5
    if !isValidDate cmonth cdate || !isValidTime chour cmin csec then
      emit (Effect.println BAD_INPUT) s
    else
      let s := emit (Effect.setClock cyear cmonth cdate chour cmin csec) s
      let ok := env.rtcSetResult
      let s :=
        if 0 ≠ ok then
          emit (Effect.println (toString ok)) (emit (Effect.print "Failed to set RTC: ") s)
        else s
      let tnow := env.nowAfterSet
      if TimeStatus.timeSet ≠ env.timeStatusAfterSet then
        emit (Effect.println "Failed to set time.") s
      else
        printTime tnow s

/-- The function `setFixedOffTimeOffset`. -/
def setFixedOffTimeOffset (env : Env) (s : State) : State :=
  let inputLen := strlen s.inputBuffer
  if inputLen < 1 ∨ inputLen > 4 then
    emit (Effect.println BAD_INPUT) s
  else
    let offsetVal := scanned env (sscanfInts [none] (cstr (s.inputBuffer.drop 1))) 0
    if offsetVal < 1 ∨ offsetVal > 255 then
      emit (Effect.println BAD_INPUT) s
    else
      let r := storeEeprom FIXED_OFF_TIME_EEADDR (toByte offsetVal) s
      { r.2 with fixedOffTimeOffset := r.1 }

/-- The function `setXtraMinutes`. -/
def setXtraMinutes (env : Env) (s : State) : State :=
  let inputLen := strlen s.inputBuffer
  if inputLen < 1 ∨ inputLen > 4 then
    emit (Effect.println BAD_INPUT) s
  else
    let xmin := scanned env (sscanfInts [none] (cstr (s.inputBuffer.drop 1))) 0
    if xmin < 0 ∨ xmin > 255 then
      emit (Effect.println BAD_INPUT) s
    else
      let r := storeEeprom XTRA_MINUTES_EEADDR (toByte xmin) s
      { r.2 with xtraMinutes := r.1 }

/-- The function `processInput`. -/
def processInput (tbl : SunRiseSetTable) (env : Env) (s : State) : State :=
  let cmd := s.inputBuffer.headD NUL
  if cmd = 'h' then printHelp s
  else if cmd = 'i' then printInfo tbl env s
  else if cmd = 't' then setTime env s
  else if cmd = 'f' then setFixedOffTimeOffset env s
  else if cmd = 'x' then setXtraMinutes env s
  else emit (Effect.println BAD_INPUT) s

/-- The state after `fixedOffTimeOffset = storeEeprom(FIXED_OFF_TIME_EEADDR, n)`. -/
def acceptedFixedOff (n : Nat) (s : State) : State :=
  { s with
    fixedOffTimeOffset := n
    eeprom := fun a => if a = 0 then n else s.eeprom a
    log := s.log ++ [Effect.eepromUpdate 0 n] }

/-- The state after `xtraMinutes = storeEeprom(XTRA_MINUTES_EEADDR, n)`. -/
def acceptedXtra (n : Nat) (s : State) : State :=
  { s with
    xtraMinutes := n
    eeprom := fun a => if a = 1 then n else s.eeprom a
    log := s.log ++ [Effect.eepromUpdate 1 n] }

/-- The state after a command is answered with `Bad input.` and nothing else. -/
def rejected (s : State) : State :=
  emit (Effect.println BAD_INPUT) s

/-- Decimal value of a string of digits. -/
def decimalValue (digits : List Char) : Nat :=
  digits.foldl (fun acc c => acc * 10 + (c.toNat - 48)) 0

/-- The state in which `readInput` has just completed the line `line`: the
line, its terminating NUL, and NULs up to the size of the buffer. -/
def withLine (line : String) (s : State) : State :=
  { s with
    inputBuffer := line.toList ++ List.replicate (MAX_INPUT_LEN + 1 - line.length) NUL
    ndx := 0 }

/-! ## Input assembly -/

/-- The cancel character 0x08. -/
def BACKSPACE : Char := Char.ofNat 8

/-- The function `inputOverflowNotice`. -/
def inputOverflowNotice (s : State) : State :=
  emit (Effect.toneAC 400 10 200) (emit (Effect.println "\nInput overflow.") s)

/-- The assignment `inputBuffer[i] = c`; `none` when `i` is outside the array. -/
def writeInputBuffer (i : Int) (c : Char) (s : State) : Option State :=
  if 0 ≤ i ∧ i < (s.inputBuffer.length : Int) then
    some { s with inputBuffer := s.inputBuffer.set i.toNat c }
  else
    none

/-- One pass of the body of the `while` loop of `readInput`, on the character
read: whether `readInput` returns `true` here, and the state afterwards;
`none` when a write misses the array. -/
def readChar (receivedChar : Char) (s : State) : Option (Bool × State) :=
  if receivedChar = '\r' then
    -- ignore
    some (false, s)
  else if receivedChar = BACKSPACE then
    -- backspace clears input
    some (false, emit (Effect.println "\nInput canceled.") { s with ndx := 0 })
  else if receivedChar = '\n' then
    -- end of input
    match writeInputBuffer s.ndx NUL s with
    | none => none
    | some s1 => some (true, emit (Effect.print "\n") { s1 with ndx := 0 })
  else
    if s.ndx < (MAX_INPUT_LEN : Int) then
      match writeInputBuffer s.ndx receivedChar s with
      | none => none
      | some s1 =>
        some (false, emit (Effect.print (String.singleton receivedChar)) { s1 with ndx := s.ndx + 1 })
    else
      some (false, inputOverflowNotice s)

/-- The function `readInput`, on the characters `Serial` holds: whether a
line is complete, the state, and the characters left in `Serial`; `none` when
a write misses the array. -/
def readInput : List Char → State → Option (Bool × State × List Char)
  | [], s => some (false, s, [])
  | receivedChar :: more, s =>
    match readChar receivedChar s with
    | none => none
    | some (true, s1) => some (true, s1, more)
    | some (false, s1) => readInput more s1

/-- Successive calls of `readInput`, one per entry of `calls`, each on the
characters `Serial` holds at that call. -/
def readInputCalls : List (List Char) → State → Option State
  | [], s => some s
  | avail :: calls, s =>
    match readInput avail s with
    | none => none
    | some r => readInputCalls calls r.2.1

/-- Successive calls of `readInput`, one per entry of `calls`, each on the
characters `Serial` holds at that call: the value each call returns, in
order, and the final state. -/
def readInputReports : List (List Char) → State → Option (List Bool × State)
  | [], s => some ([], s)
  | avail :: calls, s =>
    match readInput avail s with
    | none => none
    | some r =>
      match readInputReports calls r.2.1 with
      | none => none
      | some rr => some (r.1 :: rr.1, rr.2)

/-- Number of overflow notices in a list of collaborator calls. -/
def overflowNotices (l : List Effect) : Nat :=
  l.count (Effect.println "\nInput overflow.")

/-- The part of a character stream after its last cancel character. -/
def afterLastCancel (stream : List Char) : List Char :=
  (stream.reverse.takeWhile (fun c => c ≠ BACKSPACE)).reverse

/-- The line a character stream spells, as the claim on line assembly words
it: the part after the last cancel character, without carriage returns, cut
to the first `MAX_INPUT_LEN` characters. -/
def spelledLine (stream : List Char) : List Char :=
  ((afterLastCancel stream).filter (fun c => c ≠ '\r')).take MAX_INPUT_LEN

/-- The in-progress line after one more character that is no newline. -/
def pendingStep (cur : List Char) (c : Char) : List Char :=
  if c = '\r' then cur
  else if c = BACKSPACE then []
  else if cur.length < MAX_INPUT_LEN then cur ++ [c]
  else cur

/-- The in-progress line after a stream of characters without newline. -/
def pending (cur : List Char) (stream : List Char) : List Char :=
  stream.foldl pendingStep cur

/-- The input buffer has its declared size and `ndx` is an index of it that
leaves room for the terminating NUL. -/
def InputOk (s : State) : Prop :=
  s.inputBuffer.length = MAX_INPUT_LEN + 1 ∧ 0 ≤ s.ndx ∧ s.ndx ≤ (MAX_INPUT_LEN : Int)

/-- The in-progress line of the state is `cur`: the first `ndx` characters of
the buffer. -/
def Spells (s : State) (cur : List Char) : Prop :=
  s.inputBuffer.length = MAX_INPUT_LEN + 1 ∧ s.ndx = (cur.length : Int) ∧
    cur.length ≤ MAX_INPUT_LEN ∧ s.inputBuffer.take cur.length = cur

/-! ## Sample inputs -/

/-- The globals as the C runtime initialises them, over a given EEPROM. -/
def initialState (eeprom : Nat → Nat) : State :=
  { inputBuffer := List.replicate (MAX_INPUT_LEN + 1) NUL
    ndx := 0
    fixedOffTimeOffset := FIXED_OFF_TIME_DISABLED
    xtraMinutes := 0
    coolingOff := false
    lastCheckMillis := 0
    nowMillis := 0
    lightsPin := false
    ledPin := false
    eeprom := eeprom
    log := [] }

/-- An erased EEPROM: every byte reads 255. -/
def erasedEeprom : Nat → Nat := fun _ => 255

/-- A table with sunrise 06:30 and sunset 19:45 on every day. -/
def sampleTable : SunRiseSetTable := fun _ _ k => if k = 0 then 630 else 1945

/-- An environment with the clock set to 2024-06-15 at the given hour and
minute, and the given temperature in whole degrees. -/
def sampleEnv (temp hour minute : Int) : Env :=
  { rtcTemperature := temp * 4
    timeStatus := TimeStatus.timeSet
    now := { year := 2024, month := 6, day := 15, hour := hour, minute := minute, second := 0 }
    rtcSetResult := 0
    timeStatusAfterSet := TimeStatus.timeSet
    nowAfterSet := { year := 2024, month := 6, day := 15, hour := hour, minute := minute, second := 0 }
    uninit := fun _ => 7 }

/-! ## Setup and main loop -/

/-- What the collaborators answer during one pass of `loop`. -/
structure LoopEnv where
  /-- The characters `Serial` holds when `readInput` is called. -/
  serial : List Char
  /-- The answers while `processInput` runs. -/
  input : Env
  /-- Value of `millis()`. -/
  millis : Nat
  /-- The answers while `checkTemp` and `checkLights` run. -/
  check : Env

/-- The function `setup`, run on the globals as the C runtime initialises
them; `oscStopped` is the answer of `RTC.oscStopped(false)`.  The calls
`pinMode`, `Serial.begin` and `setSyncProvider` configure the collaborators
and leave no entry in the log. -/
def setup (oscStopped : Bool) (s : State) : State :=
  let s := emit (Effect.toneAC 523 10 500) s
  let s := emit (Effect.toneAC 262 10 500) s
  let s := emit (Effect.toneAC 523 10 500) s
  let s := lightsOff s
  let s := if oscStopped then emit (Effect.println "RTC lost power. Set time.") s else s
  let s := { s with fixedOffTimeOffset := loadEeprom FIXED_OFF_TIME_EEADDR s }
  let s := { s with xtraMinutes := loadEeprom XTRA_MINUTES_EEADDR s }
  printHelp s

/-- The function `loop`, one pass; `unsigned long` arithmetic is modulo
`2 ^ 32`.  The characters `readInput` leaves in `Serial` are among those the
next pass finds there.  The result is `none` when `readInput` writes outside
the buffer. -/
def loop (tbl : SunRiseSetTable) (e : LoopEnv) (s : State) : Option State :=
  -- read from serial while waiting for next lights check
  match readInput e.serial s with
  | none => none
  | some r =>
    let s1 := if r.1 then { processInput tbl e.input r.2.1 with lastCheckMillis := 0 } else r.2.1
    let s2 := { s1 with nowMillis := e.millis % 2 ^ 32 }
    if s2.lastCheckMillis = 0
        ∨ (s2.nowMillis + 2 ^ 32 - s2.lastCheckMillis) % 2 ^ 32 ≥ CHECK_LIGHTS_SECONDS * 1000 then
      some (loopCheck tbl e.check s2)
    else
      some s2

/-- Successive passes of `loop`, one per entry of `envs`. -/
def loopRun (tbl : SunRiseSetTable) : List LoopEnv → State → Option State
  | [], s => some s
  | e :: envs, s =>
    match loop tbl e s with
    | none => none
    | some s1 => loopRun tbl envs s1

/-- A pass of `loop` that finds no character on `Serial`, at the given value
of `millis()`, temperature in whole degrees, and hour and minute of
2024-06-15. -/
def samplePass (millis : Nat) (temp hour minute : Int) : LoopEnv :=
  { serial := []
    input := sampleEnv temp hour minute
    millis := millis
    check := sampleEnv temp hour minute }

/-- An EEPROM that holds 255 (override disabled) at address 0 and 0 (no extra
minutes) elsewhere. -/
def plainEeprom : Nat → Nat := fun a => if a = 0 then 255 else 0

/-- The states the sketch can be in: after `setup` on the initial globals, and
after any further pass of `loop`. -/
inductive Reachable (tbl : SunRiseSetTable) : State → Prop where
  | setup (oscStopped : Bool) (eeprom : Nat → Nat) :
      Reachable tbl (setup oscStopped (initialState eeprom))
  | loop (e : LoopEnv) (s s1 : State) :
      Reachable tbl s → loop tbl e s = some s1 → Reachable tbl s1

/-- The second state has the cooling flag, the pins, the input buffer and its
index of the first. -/
def SameCore (s s1 : State) : Prop :=
  s1.coolingOff = s.coolingOff ∧ s1.lightsPin = s.lightsPin ∧ s1.ledPin = s.ledPin ∧
    s1.inputBuffer = s.inputBuffer ∧ s1.ndx = s.ndx

/-! ## Calendar -/

/-- Last day of a month as the claim on `isValidDate` words it: 29 for
February, 30 for April, June, September and November, 31 otherwise. -/
def maxDay (cmonth : Int) : Int :=
  if cmonth = 2 then 29
  else if cmonth = 4 ∨ cmonth = 6 ∨ cmonth = 9 ∨ cmonth = 11 then 30
  else 31

/-! ## Theorems -/

/-- The log after `n` calls of `toneAC` in a row. -/
theorem toneTimes_eq (n f v l : Nat) (s : State) :
    toneTimes n f v l s =
      { s with log := s.log ++ List.replicate n (Effect.toneAC f v l) } := by
  induction n generalizing s with
  | zero => simp [toneTimes]
  | succ k ih =>
    rw [toneTimes, ih]
    simp [emit, List.replicate_succ]

/-- While cooling off, a reading of at least 50 is denied and keeps `coolingOff`. -/
theorem checkTemp_cooling (env : Env) (s : State) (hc : s.coolingOff = true)
    (ht : 50 ≤ getTemp env) :
    (checkTemp env s).1 = false ∧ (checkTemp env s).2.coolingOff = true := by
  unfold checkTemp
  simp only [TEMP_SHUTDOWN, TEMP_CRITICAL, TEMP_WARN, toneTimes_eq, ge_iff_le]
  split_ifs with h1 h2
  · simp
  · simp [hc]
  · simp [hc]

/-- A run of readings of at least 50 while cooling off: all denied, all cooling. -/
theorem checkTempRun_cooling (envs : List Env) (s : State) (hc : s.coolingOff = true)
    (hrun : ∀ x ∈ envs, 50 ≤ getTemp x) :
    (checkTempRun envs s).1 = List.replicate envs.length (false, true) ∧
      (checkTempRun envs s).2.coolingOff = true := by
  induction envs generalizing s with
  | nil => simp [checkTempRun, hc]
  | cons env rest ih =>
    have hstep := checkTemp_cooling env s hc (hrun env (List.mem_cons_self _ _))
    have hrest := ih (checkTemp env s).2 hstep.2
      (fun x hx => hrun x (List.mem_cons_of_mem _ hx))
    simp only [checkTempRun, List.length_cons, List.replicate_succ]
    exact ⟨by rw [hstep.1, hstep.2, hrest.1], hrest.2⟩

/-- C1: thermal hysteresis. From any state, once `checkTemp` has evaluated a
reading of at least 80, every evaluation in a following run of readings that
are all at least 50 returns `false` and leaves `coolingOff` true, and the
first reading below 50 after that run returns `true` and clears `coolingOff`. -/
theorem C1_thermal_hysteresis (s : State) (e0 : Env) (envs : List Env) (e : Env)
    (h0 : 80 ≤ getTemp e0) (hrun : ∀ x ∈ envs, 50 ≤ getTemp x) (hlast : getTemp e < 50) :
    (checkTemp e0 s).1 = false ∧
    (checkTemp e0 s).2.coolingOff = true ∧
    (checkTempRun envs (checkTemp e0 s).2).1 = List.replicate envs.length (false, true) ∧
    (checkTemp e (checkTempRun envs (checkTemp e0 s).2).2).1 = true ∧
    (checkTemp e (checkTempRun envs (checkTemp e0 s).2).2).2.coolingOff = false := by
  have hfirst : (checkTemp e0 s).1 = false ∧ (checkTemp e0 s).2.coolingOff = true := by
    unfold checkTemp
    simp only [TEMP_SHUTDOWN, toneTimes_eq, ge_iff_le]
    rw [if_pos h0]
    simp
  have hmid := checkTempRun_cooling envs (checkTemp e0 s).2 hfirst.2 hrun
  refine ⟨hfirst.1, hfirst.2, hmid.1, ?_, ?_⟩
  all_goals
    unfold checkTemp
    simp only [TEMP_SHUTDOWN, TEMP_CRITICAL, TEMP_WARN, ge_iff_le]
    rw [if_neg (by omega), if_neg (by omega), if_neg (by omega)]

/-- At 80 degrees or more `checkTemp` switches off, sets `coolingOff`, sounds 6 pulses. -/
theorem checkTemp_shutdown (env : Env) (s : State) (h : 80 ≤ getTemp env) :
    checkTemp env s = (false,
      { s with
        coolingOff := true, lightsPin := false, ledPin := false,
        log := s.log ++
          [Effect.digitalWrite Pin.LIGHTS_PIN false, Effect.digitalWrite Pin.LED_PIN false,
            Effect.println "Lights off."] ++
          List.replicate 6 (Effect.toneAC 1200 10 300) }) := by
  unfold checkTemp
  simp only [TEMP_SHUTDOWN, toneTimes_eq, ge_iff_le]
  rw [if_pos h]
  simp [lightsOff, digitalWrite, emit]

/-- In [70,80) `checkTemp` sounds 4 pulses and answers the negation of `coolingOff`. -/
theorem checkTemp_critical (env : Env) (s : State) (h : 70 ≤ getTemp env ∧ getTemp env < 80) :
    checkTemp env s = (!s.coolingOff,
      { s with log := s.log ++ List.replicate 4 (Effect.toneAC 1200 10 600) }) := by
  unfold checkTemp
  simp only [TEMP_SHUTDOWN, TEMP_CRITICAL, toneTimes_eq, ge_iff_le]
  rw [if_neg (by omega), if_pos h.1]

/-- In [50,70) `checkTemp` sounds 2 pulses and answers the negation of `coolingOff`. -/
theorem checkTemp_warn (env : Env) (s : State) (h : 50 ≤ getTemp env ∧ getTemp env < 70) :
    checkTemp env s = (!s.coolingOff,
      { s with log := s.log ++ List.replicate 2 (Effect.toneAC 1200 10 1000) }) := by
  unfold checkTemp
  simp only [TEMP_SHUTDOWN, TEMP_CRITICAL, TEMP_WARN, toneTimes_eq, ge_iff_le]
  rw [if_neg (by omega), if_neg (by omega), if_pos h.1]

/-- Below 50 degrees `checkTemp` clears `coolingOff` and allows. -/
theorem checkTemp_normal (env : Env) (s : State) (h : getTemp env < 50) :
    checkTemp env s = (true, { s with coolingOff := false }) := by
  unfold checkTemp
  simp only [TEMP_SHUTDOWN, TEMP_CRITICAL, TEMP_WARN, ge_iff_le]
  rw [if_neg (by omega), if_neg (by omega), if_neg (by omega)]

/-- C2: single step of the thermal guard, for every reading and every prior
`coolingOff`: at 80 or more it returns `false`, sets `coolingOff`, drives both
pins low and sounds 6 pulses; in [70,80) and in [50,70) it returns the negation
of `coolingOff`, keeps the state and sounds 4, respectively 2, pulses; below 50
it returns `true`, clears `coolingOff` and calls no collaborator. -/
theorem C2_checkTemp_step (env : Env) (s : State) :
    (80 ≤ getTemp env →
      checkTemp env s = (false,
        { s with
          coolingOff := true, lightsPin := false, ledPin := false,
          log := s.log ++
            [Effect.digitalWrite Pin.LIGHTS_PIN false, Effect.digitalWrite Pin.LED_PIN false,
              Effect.println "Lights off."] ++
            List.replicate 6 (Effect.toneAC 1200 10 300) })) ∧
    (70 ≤ getTemp env ∧ getTemp env < 80 →
      checkTemp env s = (!s.coolingOff,
        { s with log := s.log ++ List.replicate 4 (Effect.toneAC 1200 10 600) })) ∧
    (50 ≤ getTemp env ∧ getTemp env < 70 →
      checkTemp env s = (!s.coolingOff,
        { s with log := s.log ++ List.replicate 2 (Effect.toneAC 1200 10 1000) })) ∧
    (getTemp env < 50 →
      checkTemp env s = (true, { s with coolingOff := false })) :=
  ⟨checkTemp_shutdown env s, checkTemp_critical env s, checkTemp_warn env s,
    checkTemp_normal env s⟩

/-- C1 at a concrete run: 85, then 60, 75, 50, then 49 degrees. -/
theorem C1_thermal_hysteresis_witness :
    (checkTemp (sampleEnv 85 12 0) (initialState erasedEeprom)).1 = false ∧
    (checkTemp (sampleEnv 85 12 0) (initialState erasedEeprom)).2.coolingOff = true ∧
    (checkTempRun [sampleEnv 60 12 1, sampleEnv 75 12 2, sampleEnv 50 12 3]
        (checkTemp (sampleEnv 85 12 0) (initialState erasedEeprom)).2).1
      = List.replicate 3 (false, true) ∧
    (checkTemp (sampleEnv 49 12 4)
        (checkTempRun [sampleEnv 60 12 1, sampleEnv 75 12 2, sampleEnv 50 12 3]
          (checkTemp (sampleEnv 85 12 0) (initialState erasedEeprom)).2).2).1 = true ∧
    (checkTemp (sampleEnv 49 12 4)
        (checkTempRun [sampleEnv 60 12 1, sampleEnv 75 12 2, sampleEnv 50 12 3]
          (checkTemp (sampleEnv 85 12 0) (initialState erasedEeprom)).2).2).2.coolingOff = false :=
  C1_thermal_hysteresis (initialState erasedEeprom) (sampleEnv 85 12 0)
    [sampleEnv 60 12 1, sampleEnv 75 12 2, sampleEnv 50 12 3] (sampleEnv 49 12 4)
    (by decide) (by decide) (by decide)

/-- C2 at a concrete reading of 72 degrees while cooling off: denied, 4 pulses. -/
theorem C2_checkTemp_step_witness :
    (70 ≤ getTemp (sampleEnv 72 12 0) ∧ getTemp (sampleEnv 72 12 0) < 80) ∧
    checkTemp (sampleEnv 72 12 0) { initialState erasedEeprom with coolingOff := true } =
      (false, { initialState erasedEeprom with
        coolingOff := true, log := List.replicate 4 (Effect.toneAC 1200 10 600) }) :=
  ⟨by decide,
    (C2_checkTemp_step (sampleEnv 72 12 0)
      { initialState erasedEeprom with coolingOff := true }).2.1 (by decide)⟩

/-- On non-negative values `time2Offset` is floor division arithmetic. -/
theorem time2Offset_nonneg (h : Int) (h0 : 0 ≤ h) :
    time2Offset h = h / 100 * 60 + h % 100 := by
  unfold time2Offset
  rw [Int.tdiv_eq_ediv h0 (by decide), Int.tmod_eq_emod h0 (by decide)]

/-- On non-negative values `offset2Time` is floor division arithmetic. -/
theorem offset2Time_nonneg (m : Int) (h0 : 0 ≤ m) :
    offset2Time m = m / 60 * 100 + m % 60 := by
  unfold offset2Time
  rw [Int.tdiv_eq_ediv h0 (by decide), Int.tmod_eq_emod h0 (by decide)]

/-- For a minute count of one day, `offset2Time` is a valid HHmm value and
`time2Offset` undoes it. -/
theorem offset2Time_valid (m : Int) (h0 : 0 ≤ m) (h1 : m < 1440) :
    ValidHHmm (offset2Time m) ∧ time2Offset (offset2Time m) = m := by
  have e := offset2Time_nonneg m h0
  have hnn : 0 ≤ offset2Time m := by rw [e]; omega
  rw [time2Offset_nonneg _ hnn]
  unfold ValidHHmm
  rw [e]
  omega

/-- C3: extra-minutes arithmetic. For valid HHmm sunrise and sunset of the
table entry, `xtraMinutes` x in [1,255] with sunrise + x before midnight and
sunset - x not before midnight, and the fixed override disabled (255),
`getTimeInfo` gives valid HHmm `LightsOff` and `LightsOn` that are sunrise + x
and sunset - x in minutes, and reports `SunRise` and `SunSet` unchanged. -/
theorem C3_extra_minutes (tbl : SunRiseSetTable) (s : State) (cmonth cdate : Int)
    (hrise : ValidHHmm (tbl (cmonth - 1) (cdate - 1) 0))
    (hset : ValidHHmm (tbl (cmonth - 1) (cdate - 1) 1))
    (hx1 : 1 ≤ s.xtraMinutes) (hx2 : s.xtraMinutes ≤ 255)
    (hoff : time2Offset (tbl (cmonth - 1) (cdate - 1) 0) + (s.xtraMinutes : Int) < 1440)
    (hon : 0 ≤ time2Offset (tbl (cmonth - 1) (cdate - 1) 1) - (s.xtraMinutes : Int))
    (hfix : s.fixedOffTimeOffset = 255) :
    ValidHHmm (getTimeInfo tbl s cmonth cdate).LightsOff ∧
    ValidHHmm (getTimeInfo tbl s cmonth cdate).LightsOn ∧
    time2Offset (getTimeInfo tbl s cmonth cdate).LightsOff
      = time2Offset (tbl (cmonth - 1) (cdate - 1) 0) + (s.xtraMinutes : Int) ∧
    time2Offset (getTimeInfo tbl s cmonth cdate).LightsOn
      = time2Offset (tbl (cmonth - 1) (cdate - 1) 1) - (s.xtraMinutes : Int) ∧
    (getTimeInfo tbl s cmonth cdate).SunRise = tbl (cmonth - 1) (cdate - 1) 0 ∧
    (getTimeInfo tbl s cmonth cdate).SunSet = tbl (cmonth - 1) (cdate - 1) 1 := by
  have hpos : s.xtraMinutes > 0 := by omega
  have hti : getTimeInfo tbl s cmonth cdate =
      { LightsOff := offset2Time (time2Offset (tbl (cmonth - 1) (cdate - 1) 0) + (s.xtraMinutes : Int)),
        SunRise := tbl (cmonth - 1) (cdate - 1) 0,
        LightsOn := offset2Time (time2Offset (tbl (cmonth - 1) (cdate - 1) 1) - (s.xtraMinutes : Int)),
        SunSet := tbl (cmonth - 1) (cdate - 1) 1 } := by
    unfold getTimeInfo
    simp [hpos, hfix, FIXED_OFF_TIME_DISABLED]
  rw [hti]
  have r0 : 0 ≤ time2Offset (tbl (cmonth - 1) (cdate - 1) 0) := by
    rw [time2Offset_nonneg _ hrise.1]
    have := hrise.1
    omega
  have s1 : time2Offset (tbl (cmonth - 1) (cdate - 1) 1) < 1440 := by
    rw [time2Offset_nonneg _ hset.1]
    have := hset.2.1
    have := hset.2.2
    omega
  have hA := offset2Time_valid
    (time2Offset (tbl (cmonth - 1) (cdate - 1) 0) + (s.xtraMinutes : Int)) (by omega) hoff
  have hB := offset2Time_valid
    (time2Offset (tbl (cmonth - 1) (cdate - 1) 1) - (s.xtraMinutes : Int)) hon (by omega)
  exact ⟨hA.1, hB.1, hA.2, hB.2, rfl, rfl⟩

/-- C3 on 15 June of the sample table (06:30, 19:45) with 45 extra minutes:
the window is 07:15 to 19:00. -/
theorem C3_extra_minutes_witness :
    (getTimeInfo sampleTable { initialState erasedEeprom with xtraMinutes := 45 } 6 15)
        = { LightsOff := 715, SunRise := 630, LightsOn := 1900, SunSet := 1945 } ∧
    time2Offset (getTimeInfo sampleTable
        { initialState erasedEeprom with xtraMinutes := 45 } 6 15).LightsOff
      = time2Offset (sampleTable (6 - 1) (15 - 1) 0) + ((45 : Nat) : Int) :=
  ⟨by decide,
    (C3_extra_minutes sampleTable { initialState erasedEeprom with xtraMinutes := 45 } 6 15
      (by decide) (by decide) (by decide) (by decide) (by decide) (by decide) (by decide)).2.2.1⟩

/-- C4: the fixed override wins. For every table entry, every `xtraMinutes` in
[0,255] and every `fixedOffTimeOffset` f other than 255, `getTimeInfo` gives
`LightsOff = offset2Time f`, and its `LightsOn` is the one computed with the
same `xtraMinutes` and the override disabled. -/
theorem C4_fixed_override (tbl : SunRiseSetTable) (s : State) (cmonth cdate : Int)
    (_hx : s.xtraMinutes ≤ 255) (_hf : s.fixedOffTimeOffset ≤ 255)
    (hne : s.fixedOffTimeOffset ≠ 255) :
    (getTimeInfo tbl s cmonth cdate).LightsOff = offset2Time (s.fixedOffTimeOffset : Int) ∧
    (getTimeInfo tbl s cmonth cdate).LightsOn
      = (getTimeInfo tbl { s with fixedOffTimeOffset := 255 } cmonth cdate).LightsOn := by
  unfold getTimeInfo
  simp [FIXED_OFF_TIME_DISABLED, hne]

/-- C4 on the sample table: override 200 with 45 extra minutes gives 03:20. -/
theorem C4_fixed_override_witness :
    (getTimeInfo sampleTable
        { initialState erasedEeprom with xtraMinutes := 45, fixedOffTimeOffset := 200 } 6 15).LightsOff
      = 320 ∧
    (getTimeInfo sampleTable
        { initialState erasedEeprom with xtraMinutes := 45, fixedOffTimeOffset := 200 } 6 15).LightsOn
      = 1900 :=
  ⟨(C4_fixed_override sampleTable
      { initialState erasedEeprom with xtraMinutes := 45, fixedOffTimeOffset := 200 } 6 15
      (by decide) (by decide) (by decide)).1.trans (by decide),
   (C4_fixed_override sampleTable
      { initialState erasedEeprom with xtraMinutes := 45, fixedOffTimeOffset := 200 } 6 15
      (by decide) (by decide) (by decide)).2.trans (by decide)⟩

/-- C5: baseline window. For every valid (month, day), with `xtraMinutes = 0`
and the fixed override disabled (255), `getTimeInfo` returns `LightsOff` equal
to the tabulated sunrise and `LightsOn` equal to the tabulated sunset. -/
theorem C5_baseline_window (tbl : SunRiseSetTable) (s : State) (cmonth cdate : Int)
    (_hvalid : isValidDate cmonth cdate = true)
    (hx : s.xtraMinutes = 0) (hfix : s.fixedOffTimeOffset = 255) :
    (getTimeInfo tbl s cmonth cdate).LightsOff = tbl (cmonth - 1) (cdate - 1) 0 ∧
    (getTimeInfo tbl s cmonth cdate).LightsOn = tbl (cmonth - 1) (cdate - 1) 1 := by
  unfold getTimeInfo
  simp [hx, hfix, FIXED_OFF_TIME_DISABLED]

/-- C5 on 29 February of the sample table. -/
theorem C5_baseline_window_witness :
    isValidDate 2 29 = true ∧
    (getTimeInfo sampleTable (initialState erasedEeprom) 2 29).LightsOff = 630 ∧
    (getTimeInfo sampleTable (initialState erasedEeprom) 2 29).LightsOn = 1945 :=
  ⟨by decide,
    C5_baseline_window sampleTable (initialState erasedEeprom) 2 29
      (by decide) (by decide) (by decide)⟩

/-- Calls of `toneAC` are no actuation. -/
theorem actuations_append_tones (l : List Effect) (n f v d : Nat) :
    actuations (l ++ List.replicate n (Effect.toneAC f v d)) = actuations l := by
  induction n with
  | zero => simp
  | succ k ih =>
    rw [List.replicate_succ', ← List.append_assoc]
    unfold actuations at ih ⊢
    rw [List.filter_append, List.length_append, ih]
    simp

/-- A reading in [50,80) only sounds pulses and answers the negation of `coolingOff`. -/
theorem checkTemp_band (env : Env) (s : State) (h1 : 50 ≤ getTemp env) (h2 : getTemp env < 80) :
    ∃ n d, checkTemp env s =
      (!s.coolingOff, { s with log := s.log ++ List.replicate n (Effect.toneAC 1200 10 d) }) := by
  by_cases h : 70 ≤ getTemp env
  · exact ⟨4, 600, checkTemp_critical env s ⟨h, h2⟩⟩
  · exact ⟨2, 1000, checkTemp_warn env s ⟨h1, by omega⟩⟩

/-- Whenever `checkTemp` allows, it has only sounded pulses and `coolingOff` is clear. -/
theorem checkTemp_allows (env : Env) (s : State) (h : (checkTemp env s).1 = true) :
    ∃ n d, (checkTemp env s).2 =
      { s with coolingOff := false,
               log := s.log ++ List.replicate n (Effect.toneAC 1200 10 d) } := by
  by_cases h80 : 80 ≤ getTemp env
  · rw [checkTemp_shutdown env s h80] at h
    simp at h
  · by_cases h50 : 50 ≤ getTemp env
    · obtain ⟨n, d, e⟩ := checkTemp_band env s h50 (by omega)
      rw [e] at h
      have hc : s.coolingOff = false := by simpa using h
      refine ⟨n, d, ?_⟩
      rw [e, ← hc]
    · refine ⟨0, 0, ?_⟩
      rw [checkTemp_normal env s (by omega)]
      simp

/-- The window depends on the state only through the two configuration bytes. -/
theorem getTimeInfo_congr (tbl : SunRiseSetTable) (s1 s2 : State) (cmonth cdate : Int)
    (hx : s1.xtraMinutes = s2.xtraMinutes)
    (hf : s1.fixedOffTimeOffset = s2.fixedOffTimeOffset) :
    getTimeInfo tbl s1 cmonth cdate = getTimeInfo tbl s2 cmonth cdate := by
  unfold getTimeInfo
  rw [hx, hf]

/-- C6: outcome of one pass of the periodic branch of `loop`. (a) At a reading
of 80 or more the lights are switched off and nothing else is done: the window
check is not run. (b) When the guard denies in [50,80) while cooling off, no
actuation happens and the pins are unchanged. (c) When the guard allows and
the time is not set, no actuation happens. (d) When the guard allows and the
time is set, exactly one actuation happens: off when
`LightsOff <= ctime <= LightsOn` for the window of today, on otherwise. -/
theorem C6_tick_outcome (tbl : SunRiseSetTable) (env : Env) (s : State) :
    (80 ≤ getTemp env →
      loopCheck tbl env s =
        { s with
          coolingOff := true, lightsPin := false, ledPin := false,
          lastCheckMillis := s.nowMillis,
          log := s.log ++
            [Effect.digitalWrite Pin.LIGHTS_PIN false, Effect.digitalWrite Pin.LED_PIN false,
              Effect.println "Lights off."] ++
            List.replicate 6 (Effect.toneAC 1200 10 300) }) ∧
    (50 ≤ getTemp env ∧ getTemp env < 80 ∧ s.coolingOff = true →
      actuations (loopCheck tbl env s).log = actuations s.log ∧
      (loopCheck tbl env s).lightsPin = s.lightsPin ∧
      (loopCheck tbl env s).ledPin = s.ledPin) ∧
    ((checkTemp env s).1 = true ∧ env.timeStatus ≠ TimeStatus.timeSet →
      actuations (loopCheck tbl env s).log = actuations s.log ∧
      (loopCheck tbl env s).lightsPin = s.lightsPin ∧
      (loopCheck tbl env s).ledPin = s.ledPin) ∧
    ((checkTemp env s).1 = true ∧ env.timeStatus = TimeStatus.timeSet →
      actuations (loopCheck tbl env s).log = actuations s.log + 1 ∧
      ((getTimeInfo tbl s env.now.month env.now.day).LightsOff
            ≤ env.now.hour * 100 + env.now.minute ∧
          env.now.hour * 100 + env.now.minute
            ≤ (getTimeInfo tbl s env.now.month env.now.day).LightsOn →
        (loopCheck tbl env s).lightsPin = false) ∧
      (¬ ((getTimeInfo tbl s env.now.month env.now.day).LightsOff
            ≤ env.now.hour * 100 + env.now.minute ∧
          env.now.hour * 100 + env.now.minute
            ≤ (getTimeInfo tbl s env.now.month env.now.day).LightsOn) →
        (loopCheck tbl env s).lightsPin = true)) := by
  refine ⟨fun h => ?_, fun h => ?_, fun h => ?_, fun h => ?_⟩
  · unfold loopCheck
    rw [checkTemp_shutdown env s h]
    simp
  · obtain ⟨n, d, e⟩ := checkTemp_band env s h.1 h.2.1
    unfold loopCheck
    rw [e]
    simp [h.2.2, actuations_append_tones]
  · obtain ⟨n, d, e⟩ := checkTemp_allows env s h.1
    have hne : TimeStatus.timeSet ≠ env.timeStatus := fun x => h.2 x.symm
    simp only [loopCheck, h.1, if_true, checkLights, if_pos hne, timeNotSetNotice, emit, e]
    have h2 := actuations_append_tones
      (s.log ++ List.replicate n (Effect.toneAC 1200 10 d)
        ++ [Effect.println "Can't check lights: time has not been set."]) 1 600 10 600
    have h3 := actuations_append_tones
      (s.log ++ List.replicate n (Effect.toneAC 1200 10 d)
        ++ [Effect.println "Can't check lights: time has not been set."]
        ++ [Effect.toneAC 600 10 600]) 1 400 10 400
    have h4 := actuations_append_tones s.log n 1200 10 d
    refine ⟨?_, trivial, trivial⟩
    simp only [List.replicate_one] at h2 h3
    rw [h3, h2]
    unfold actuations at h4 ⊢
    rw [List.filter_append, List.length_append, h4]
    simp
  · obtain ⟨n, d, e⟩ := checkTemp_allows env s h.1
    have hcfg : getTimeInfo tbl (checkTemp env s).2 env.now.month env.now.day
        = getTimeInfo tbl s env.now.month env.now.day :=
      getTimeInfo_congr tbl _ _ _ _ (by rw [e]) (by rw [e])
    have hact := actuations_append_tones s.log n 1200 10 d
    simp only [loopCheck, h.1, if_true, checkLights, h.2, ne_eq, not_true_eq_false, if_false, hcfg]
    by_cases hw : (getTimeInfo tbl s env.now.month env.now.day).LightsOff
            ≤ env.now.hour * 100 + env.now.minute ∧
          env.now.hour * 100 + env.now.minute
            ≤ (getTimeInfo tbl s env.now.month env.now.day).LightsOn
    · rw [if_pos hw, e]
      refine ⟨?_, fun _ => by simp [lightsOff, digitalWrite, emit], fun h' => absurd hw h'⟩
      simp only [lightsOff, digitalWrite, emit]
      unfold actuations at hact ⊢
      simp only [List.filter_append, List.length_append] at hact ⊢
      rw [hact]
      simp
    · rw [if_neg hw, e]
      refine ⟨?_, fun h' => absurd h' hw, fun _ => by simp [lightsOn, digitalWrite, emit]⟩
      simp only [lightsOn, digitalWrite, emit]
      unfold actuations at hact ⊢
      simp only [List.filter_append, List.length_append] at hact ⊢
      rw [hact]
      simp

/-- C6 at 22:00 on 15 June of the sample table, 20 degrees: the guard allows,
the time is set, 22:00 is outside 06:30..19:45, so the one actuation is on. -/
theorem C6_tick_outcome_witness :
    ((checkTemp (sampleEnv 20 22 0) (initialState erasedEeprom)).1 = true ∧
      (sampleEnv 20 22 0).timeStatus = TimeStatus.timeSet) ∧
    actuations (loopCheck sampleTable (sampleEnv 20 22 0) (initialState erasedEeprom)).log
      = actuations (initialState erasedEeprom).log + 1 ∧
    (loopCheck sampleTable (sampleEnv 20 22 0) (initialState erasedEeprom)).lightsPin = true :=
  ⟨by decide,
    ((C6_tick_outcome sampleTable (sampleEnv 20 22 0) (initialState erasedEeprom)).2.2.2
      (by decide)).1,
    ((C6_tick_outcome sampleTable (sampleEnv 20 22 0) (initialState erasedEeprom)).2.2.2
      (by decide)).2.2 (by decide)⟩

/-- The C string one character further on is the tail of the C string. -/
theorem cstr_drop_one (buf : List Char) (c : Char) (p : List Char)
    (h : cstr buf = c :: p) : cstr (buf.drop 1) = p := by
  cases buf with
  | nil => simp [cstr] at h
  | cons b bs =>
    unfold cstr at h ⊢
    rw [List.takeWhile_cons] at h
    split_ifs at h with hb
    · simp only [List.cons.injEq] at h
      simpa using h.2

/-- The first character of a non-empty C string is the head of the array. -/
theorem headD_of_cstr (buf : List Char) (c : Char) (p : List Char)
    (h : cstr buf = c :: p) : buf.headD NUL = c := by
  cases buf with
  | nil => simp [cstr] at h
  | cons b bs =>
    unfold cstr at h
    rw [List.takeWhile_cons] at h
    split_ifs at h with hb
    · simp only [List.cons.injEq] at h
      simpa using h.1

/-- A decimal digit is no white space. -/
theorem isspace_of_isDigit (c : Char) (h : c.isDigit = true) : isspace c = false := by
  unfold isspace
  simp only [Bool.or_eq_false_iff, decide_eq_false_iff_not]
  refine ⟨⟨⟨⟨⟨?_, ?_⟩, ?_⟩, ?_⟩, ?_⟩, ?_⟩ <;>
  · intro e
    rw [e] at h
    exact absurd h (by decide)

/-- A decimal digit is no sign. -/
theorem not_sign_of_isDigit (c : Char) (h : c.isDigit = true) : ¬ (c = '-' ∨ c = '+') := by
  rintro (e | e) <;>
  · rw [e] at h
    exact absurd h (by decide)

/-- On a string of digits no longer than the width, `scanDigits` reads them all. -/
theorem scanDigits_all (ds : List Char) (hd : ∀ c ∈ ds, c.isDigit = true) :
    ∀ (w acc n : Nat), ds.length ≤ w →
      scanDigits w ds acc n
        = (ds.foldl (fun a c => a * 10 + (c.toNat - 48)) acc, n + ds.length, []) := by
  induction ds with
  | nil =>
    intro w acc n _
    cases w <;> simp [scanDigits]
  | cons d rest ih =>
    intro w acc n hw
    cases w with
    | zero => simp at hw
    | succ k =>
      have hdd : d.isDigit = true := hd d (List.mem_cons_self _ _)
      simp only [scanDigits, hdd, if_true]
      rw [ih (fun c hc => hd c (List.mem_cons_of_mem _ hc)) k _ _ (by simpa using hw)]
      simp [Nat.add_assoc, Nat.add_comm 1]

/-- A single `%d` on a non-empty string of digits assigns its decimal value. -/
theorem sscanfInts_digits (ds : List Char) (hne : ds ≠ [])
    (hd : ∀ c ∈ ds, c.isDigit = true) :
    sscanfInts [none] ds = [(decimalValue ds : Int)] := by
  cases ds with
  | nil => exact absurd rfl hne
  | cons d rest =>
    have hdd : d.isDigit = true := hd d (List.mem_cons_self _ _)
    have hsp : isspace d = false := isspace_of_isDigit d hdd
    have hsg := not_sign_of_isDigit d hdd
    have hall := scanDigits_all (d :: rest) hd (d :: rest).length 0 0 (le_refl _)
    have hscan : scanInt none (d :: rest) = some ((decimalValue (d :: rest) : Int), []) := by
      simp only [scanInt, List.dropWhile_cons, hsp, Bool.false_eq_true, if_false,
        Option.getD_none, if_neg hsg]
      rw [hall]
      simp [decimalValue]
    simp only [sscanfInts, hscan]

/-- A byte value survives the conversion from `int`. -/
theorem toByte_of_range (v : Int) (h0 : 0 ≤ v) (h1 : v ≤ 255) : toByte v = v.toNat := by
  unfold toByte
  congr 1
  omega

/-- The command `f` on a line of 1 to 4 characters: decided by the value in `offsetVal`. -/
theorem setFixedOffTimeOffset_short (env : Env) (s : State)
    (h1 : 1 ≤ strlen s.inputBuffer) (h4 : strlen s.inputBuffer ≤ 4) :
    setFixedOffTimeOffset env s =
      if scanned env (sscanfInts [none] (cstr (s.inputBuffer.drop 1))) 0 < 1
          ∨ scanned env (sscanfInts [none] (cstr (s.inputBuffer.drop 1))) 0 > 255 then
        rejected s
      else
        acceptedFixedOff (toByte (scanned env (sscanfInts [none] (cstr (s.inputBuffer.drop 1))) 0)) s := by
  unfold setFixedOffTimeOffset
  simp only []
  rw [if_neg (by omega)]
  rfl

/-- The command `f` on a line of more than 4 characters is rejected. -/
theorem setFixedOffTimeOffset_long (env : Env) (s : State) (h : 4 < strlen s.inputBuffer) :
    setFixedOffTimeOffset env s = rejected s := by
  unfold setFixedOffTimeOffset
  simp only []
  rw [if_pos (Or.inr h)]
  rfl

/-- The command `x` on a line of 1 to 4 characters: decided by the value in `xmin`. -/
theorem setXtraMinutes_short (env : Env) (s : State)
    (h1 : 1 ≤ strlen s.inputBuffer) (h4 : strlen s.inputBuffer ≤ 4) :
    setXtraMinutes env s =
      if scanned env (sscanfInts [none] (cstr (s.inputBuffer.drop 1))) 0 < 0
          ∨ scanned env (sscanfInts [none] (cstr (s.inputBuffer.drop 1))) 0 > 255 then
        rejected s
      else
        acceptedXtra (toByte (scanned env (sscanfInts [none] (cstr (s.inputBuffer.drop 1))) 0)) s := by
  unfold setXtraMinutes
  simp only []
  rw [if_neg (by omega)]
  rfl

/-- The command `x` on a line of more than 4 characters is rejected. -/
theorem setXtraMinutes_long (env : Env) (s : State) (h : 4 < strlen s.inputBuffer) :
    setXtraMinutes env s = rejected s := by
  unfold setXtraMinutes
  simp only []
  rw [if_pos (Or.inr h)]
  rfl

/-- An accepted and a rejected command differ in their last logged call. -/
theorem acceptedFixedOff_ne_rejected (n : Nat) (s : State) :
    acceptedFixedOff n s ≠ rejected s := by
  intro h
  have hl := congrArg State.log h
  simp [acceptedFixedOff, rejected, emit] at hl

/-- C7 (amended): validation of the `f` command. `strlen(inputBuffer)` counts
the command character, so for a line made of `f` and a payload of decimal
digits: with 1 to 3 digits the line is accepted (the decimal value is stored
as the fixed off time and in EEPROM byte 0) if and only if the value is in
[1,255], and is rejected otherwise; with 4 or more digits the line fails the
length check and is rejected whatever its value. -/
theorem C7_f_validation (env : Env) (s : State) (payload : List Char)
    (hline : cstr s.inputBuffer = 'f' :: payload)
    (hdig : ∀ c ∈ payload, c.isDigit = true) :
    (1 ≤ payload.length ∧ payload.length ≤ 3 →
      (setFixedOffTimeOffset env s = acceptedFixedOff (decimalValue payload) s
        ↔ 1 ≤ decimalValue payload ∧ decimalValue payload ≤ 255) ∧
      (¬ (1 ≤ decimalValue payload ∧ decimalValue payload ≤ 255) →
        setFixedOffTimeOffset env s = rejected s)) ∧
    (4 ≤ payload.length →
      4 < strlen s.inputBuffer ∧ setFixedOffTimeOffset env s = rejected s) := by
  have hlen : strlen s.inputBuffer = (payload.length : Int) + 1 := by
    unfold strlen
    rw [hline]
    simp
  constructor
  · intro hp
    have hne : payload ≠ [] := by
      intro e
      rw [e] at hp
      simp at hp
    have hparse := sscanfInts_digits payload hne hdig
    have hval : scanned env (sscanfInts [none] (cstr (s.inputBuffer.drop 1))) 0
        = (decimalValue payload : Int) := by
      rw [cstr_drop_one _ _ _ hline, hparse]
      simp [scanned]
    have hev := setFixedOffTimeOffset_short env s (by omega) (by omega)
    rw [hval] at hev
    by_cases hr : 1 ≤ decimalValue payload ∧ decimalValue payload ≤ 255
    · have hacc : setFixedOffTimeOffset env s = acceptedFixedOff (decimalValue payload) s := by
        rw [hev, if_neg (by omega), toByte_of_range _ (by omega) (by omega)]
        simp
      exact ⟨⟨fun _ => hr, fun _ => hacc⟩, fun h => absurd hr h⟩
    · have hrej : setFixedOffTimeOffset env s = rejected s := by
        rw [hev, if_pos (by omega)]
      refine ⟨⟨fun h => ?_, fun h => absurd h hr⟩, fun _ => hrej⟩
      rw [hrej] at h
      exact absurd h.symm (acceptedFixedOff_ne_rejected _ _)
  · intro hp
    have h4 : 4 < strlen s.inputBuffer := by omega
    exact ⟨h4, setFixedOffTimeOffset_long env s h4⟩

/-- C7 as stated fails: the payloads `0100` and `9999` have 4 digits, the line
has 5 characters and fails the length check; `f0100` is rejected although its
value 100 is in [1,255]. -/
theorem C7_counterexample :
    decimalValue "0100".toList = 100 ∧
    strlen (withLine "f0100" (initialState erasedEeprom)).inputBuffer = 5 ∧
    (setFixedOffTimeOffset (sampleEnv 20 12 0)
      (withLine "f0100" (initialState erasedEeprom))).log = [Effect.println BAD_INPUT] ∧
    (setFixedOffTimeOffset (sampleEnv 20 12 0)
      (withLine "f0100" (initialState erasedEeprom))).fixedOffTimeOffset = 255 ∧
    strlen (withLine "f9999" (initialState erasedEeprom)).inputBuffer = 5 ∧
    ¬ (strlen (withLine "f9999" (initialState erasedEeprom)).inputBuffer ≤ 4) := by
  decide

/-- C7 (amended) on the line `f100`: accepted, 100 is stored. -/
theorem C7_f_validation_witness :
    setFixedOffTimeOffset (sampleEnv 20 12 0) (withLine "f100" (initialState erasedEeprom))
      = acceptedFixedOff (decimalValue "100".toList)
          (withLine "f100" (initialState erasedEeprom)) :=
  (((C7_f_validation (sampleEnv 20 12 0) (withLine "f100" (initialState erasedEeprom))
      "100".toList (by decide) (by decide)).1 (by decide)).1).mpr (by decide)

/-- C8: on the line `f` (and on the line `x`) with an empty payload the length
check passes, `sscanf` assigns nothing, and the value the uninitialised local
holds, here 7, is stored in memory and in the EEPROM; no `Bad input.` is
printed. -/
theorem C8_empty_payload_stores_uninitialised :
    (processInput sampleTable { sampleEnv 20 12 0 with uninit := fun _ => 7 }
      (withLine "f" (initialState erasedEeprom))).fixedOffTimeOffset = 7 ∧
    (processInput sampleTable { sampleEnv 20 12 0 with uninit := fun _ => 7 }
      (withLine "f" (initialState erasedEeprom))).eeprom 0 = 7 ∧
    (processInput sampleTable { sampleEnv 20 12 0 with uninit := fun _ => 7 }
      (withLine "f" (initialState erasedEeprom))).log = [Effect.eepromUpdate 0 7] ∧
    (processInput sampleTable { sampleEnv 20 12 0 with uninit := fun _ => 7 }
      (withLine "x" (initialState erasedEeprom))).xtraMinutes = 7 ∧
    (processInput sampleTable { sampleEnv 20 12 0 with uninit := fun _ => 7 }
      (withLine "x" (initialState erasedEeprom))).eeprom 1 = 7 ∧
    (processInput sampleTable { sampleEnv 20 12 0 with uninit := fun _ => 7 }
      (withLine "x" (initialState erasedEeprom))).log = [Effect.eepromUpdate 1 7] := by
  decide

/-- A line whose first character is not NUL has at least one character. -/
theorem strlen_pos_of_head (buf : List Char) (c : Char) (hc : c ≠ NUL)
    (h : buf.headD NUL = c) : 1 ≤ strlen buf := by
  cases buf with
  | nil => exact absurd h.symm hc
  | cons b bs =>
    have hb : b ≠ NUL := by
      simp only [List.headD_cons] at h
      rw [h]
      exact hc
    unfold strlen cstr
    rw [List.takeWhile_cons]
    simp [hb]

/-- The command `f` with a parsed value in [1,255] stores that value. -/
theorem processInput_f_accepted (tbl : SunRiseSetTable) (env : Env) (s : State) (n : Int)
    (hcmd : s.inputBuffer.headD NUL = 'f') (hlen : strlen s.inputBuffer ≤ 4)
    (hparse : sscanfInts [none] (cstr (s.inputBuffer.drop 1)) = [n])
    (h1 : 1 ≤ n) (h2 : n ≤ 255) :
    processInput tbl env s = acceptedFixedOff n.toNat s := by
  have hpos := strlen_pos_of_head s.inputBuffer 'f' (by decide) hcmd
  have hev := setFixedOffTimeOffset_short env s hpos hlen
  have hval : scanned env (sscanfInts [none] (cstr (s.inputBuffer.drop 1))) 0 = n := by
    rw [hparse]
    simp [scanned]
  rw [hval, if_neg (by omega), toByte_of_range n (by omega) h2] at hev
  unfold processInput
  simp only [hcmd]
  rw [if_neg (by decide), if_neg (by decide), if_neg (by decide), if_pos trivial]
  exact hev

/-- The command `x` with a parsed value in [0,255] stores that value. -/
theorem processInput_x_accepted (tbl : SunRiseSetTable) (env : Env) (s : State) (n : Int)
    (hcmd : s.inputBuffer.headD NUL = 'x') (hlen : strlen s.inputBuffer ≤ 4)
    (hparse : sscanfInts [none] (cstr (s.inputBuffer.drop 1)) = [n])
    (h1 : 0 ≤ n) (h2 : n ≤ 255) :
    processInput tbl env s = acceptedXtra n.toNat s := by
  have hpos := strlen_pos_of_head s.inputBuffer 'x' (by decide) hcmd
  have hev := setXtraMinutes_short env s hpos hlen
  have hval : scanned env (sscanfInts [none] (cstr (s.inputBuffer.drop 1))) 0 = n := by
    rw [hparse]
    simp [scanned]
  rw [hval, if_neg (by omega), toByte_of_range n h1 h2] at hev
  unfold processInput
  simp only [hcmd]
  rw [if_neg (by decide), if_neg (by decide), if_neg (by decide), if_neg (by decide),
    if_pos trivial]
  exact hev

/-- C9: write-through and frame of accepted configuration commands. An
accepted `x` command with parsed value n sets `xtraMinutes` and EEPROM byte 1
to n and leaves `fixedOffTimeOffset` and EEPROM byte 0 unchanged; an accepted
`f` command with parsed value n sets `fixedOffTimeOffset` and EEPROM byte 0 to
n and leaves `xtraMinutes` and EEPROM byte 1 unchanged. -/
theorem C9_write_through_frame (tbl : SunRiseSetTable) (env : Env) (s : State) (n : Int)
    (hlen : strlen s.inputBuffer ≤ 4)
    (hparse : sscanfInts [none] (cstr (s.inputBuffer.drop 1)) = [n]) :
    (s.inputBuffer.headD NUL = 'x' → 0 ≤ n → n ≤ 255 →
      ((processInput tbl env s).xtraMinutes : Int) = n ∧
      ((processInput tbl env s).eeprom 1 : Int) = n ∧
      (processInput tbl env s).fixedOffTimeOffset = s.fixedOffTimeOffset ∧
      (processInput tbl env s).eeprom 0 = s.eeprom 0) ∧
    (s.inputBuffer.headD NUL = 'f' → 1 ≤ n → n ≤ 255 →
      ((processInput tbl env s).fixedOffTimeOffset : Int) = n ∧
      ((processInput tbl env s).eeprom 0 : Int) = n ∧
      (processInput tbl env s).xtraMinutes = s.xtraMinutes ∧
      (processInput tbl env s).eeprom 1 = s.eeprom 1) := by
  constructor
  · intro hcmd h1 h2
    rw [processInput_x_accepted tbl env s n hcmd hlen hparse h1 h2]
    simp only [acceptedXtra, if_true]
    refine ⟨by omega, by omega, trivial, ?_⟩
    simp
  · intro hcmd h1 h2
    rw [processInput_f_accepted tbl env s n hcmd hlen hparse h1 h2]
    simp only [acceptedFixedOff, if_true]
    refine ⟨by omega, by omega, trivial, ?_⟩
    simp

/-- C9 on the line `x45` over an erased EEPROM: 45 is stored at address 1, the
fixed off time and address 0 keep 255. -/
theorem C9_write_through_frame_witness :
    ((processInput sampleTable (sampleEnv 20 12 0)
        (withLine "x45" (initialState erasedEeprom))).xtraMinutes : Int) = 45 ∧
    ((processInput sampleTable (sampleEnv 20 12 0)
        (withLine "x45" (initialState erasedEeprom))).eeprom 1 : Int) = 45 ∧
    (processInput sampleTable (sampleEnv 20 12 0)
        (withLine "x45" (initialState erasedEeprom))).fixedOffTimeOffset = 255 ∧
    (processInput sampleTable (sampleEnv 20 12 0)
        (withLine "x45" (initialState erasedEeprom))).eeprom 0 = 255 :=
  (C9_write_through_frame sampleTable (sampleEnv 20 12 0)
    (withLine "x45" (initialState erasedEeprom)) 45 (by decide) (by decide)).1
    (by decide) (by decide) (by decide)

/-- C10 (amended): an accepted `f` command with parsed value n in [1,254] makes
`getTimeInfo` return `LightsOff = offset2Time n`, n minutes after midnight,
for every valid (month, day) and every `xtraMinutes`; the accepted value 255
is the sentinel `FIXED_OFF_TIME_DISABLED`, after which `LightsOff` is the one
computed with the override disabled. -/
theorem C10_f_sets_override (tbl : SunRiseSetTable) (env : Env) (s : State) (n : Int)
    (cmonth cdate : Int) (x : Nat)
    (hcmd : s.inputBuffer.headD NUL = 'f') (hlen : strlen s.inputBuffer ≤ 4)
    (hparse : sscanfInts [none] (cstr (s.inputBuffer.drop 1)) = [n])
    (h1 : 1 ≤ n) (h2 : n ≤ 255) (_hvalid : isValidDate cmonth cdate = true) :
    (n ≤ 254 →
      (getTimeInfo tbl { processInput tbl env s with xtraMinutes := x } cmonth cdate).LightsOff
        = offset2Time n ∧
      time2Offset (getTimeInfo tbl
        { processInput tbl env s with xtraMinutes := x } cmonth cdate).LightsOff = n) ∧
    (n = 255 →
      getTimeInfo tbl { processInput tbl env s with xtraMinutes := x } cmonth cdate
        = getTimeInfo tbl { s with xtraMinutes := x, fixedOffTimeOffset := 255 } cmonth cdate) := by
  rw [processInput_f_accepted tbl env s n hcmd hlen hparse h1 h2]
  constructor
  · intro h254
    have hne : n.toNat ≠ 255 := by omega
    have hcast : ((n.toNat : Nat) : Int) = n := by omega
    have hoff : (getTimeInfo tbl { acceptedFixedOff n.toNat s with xtraMinutes := x }
        cmonth cdate).LightsOff = offset2Time n := by
      unfold getTimeInfo
      simp [acceptedFixedOff, FIXED_OFF_TIME_DISABLED, hne, hcast]
    rw [hoff]
    exact ⟨rfl, (offset2Time_valid n (by omega) (by omega)).2⟩
  · intro h255
    apply getTimeInfo_congr
    · rfl
    · simp [acceptedFixedOff, h255]

/-- C10 as stated fails at n = 255: the line `f255` is accepted and stores 255,
the sentinel that disables the override, so on 15 June of the sample table
`LightsOff` is the sunrise 06:30 and not `offset2Time 255`, 04:15. -/
theorem C10_counterexample :
    (processInput sampleTable (sampleEnv 20 12 0)
      (withLine "f255" (initialState erasedEeprom))).log = [Effect.eepromUpdate 0 255] ∧
    (processInput sampleTable (sampleEnv 20 12 0)
      (withLine "f255" (initialState erasedEeprom))).fixedOffTimeOffset = 255 ∧
    isValidDate 6 15 = true ∧
    (getTimeInfo sampleTable (processInput sampleTable (sampleEnv 20 12 0)
      (withLine "f255" (initialState erasedEeprom))) 6 15).LightsOff = 630 ∧
    offset2Time 255 = 415 ∧
    (getTimeInfo sampleTable (processInput sampleTable (sampleEnv 20 12 0)
      (withLine "f255" (initialState erasedEeprom))) 6 15).LightsOff ≠ offset2Time 255 := by
  decide

/-- C10 (amended) on the line `f200`, 15 June, 45 extra minutes: 03:20. -/
theorem C10_f_sets_override_witness :
    (getTimeInfo sampleTable
      { processInput sampleTable (sampleEnv 20 12 0)
          (withLine "f200" (initialState erasedEeprom)) with xtraMinutes := 45 } 6 15).LightsOff
        = offset2Time 200 ∧
    time2Offset (getTimeInfo sampleTable
      { processInput sampleTable (sampleEnv 20 12 0)
          (withLine "f200" (initialState erasedEeprom)) with xtraMinutes := 45 } 6 15).LightsOff
        = 200 :=
  (C10_f_sets_override sampleTable (sampleEnv 20 12 0)
    (withLine "f200" (initialState erasedEeprom)) 200 6 15 45
    (by decide) (by decide) (by decide) (by decide) (by decide) (by decide)).1 (by decide)

/-- A rejected command changes neither configuration byte, in memory or in EEPROM. -/
theorem rejected_frame (s : State) :
    (rejected s).fixedOffTimeOffset = s.fixedOffTimeOffset ∧
    (rejected s).xtraMinutes = s.xtraMinutes ∧
    (rejected s).eeprom = s.eeprom ∧
    (rejected s).log = s.log ++ [Effect.println BAD_INPUT] := by
  simp [rejected, emit]

/-- The commands `f` and `x` are rejected when the line has more than 4
characters, or when the parsed value is out of range. -/
theorem processInput_invalid_rejected (tbl : SunRiseSetTable) (env : Env) (s : State) :
    (s.inputBuffer.headD NUL = 'f' →
      (4 < strlen s.inputBuffer ∨
        ∃ n, sscanfInts [none] (cstr (s.inputBuffer.drop 1)) = [n] ∧ (n < 1 ∨ 255 < n)) →
      processInput tbl env s = rejected s) ∧
    (s.inputBuffer.headD NUL = 'x' →
      (4 < strlen s.inputBuffer ∨
        ∃ n, sscanfInts [none] (cstr (s.inputBuffer.drop 1)) = [n] ∧ (n < 0 ∨ 255 < n)) →
      processInput tbl env s = rejected s) := by
  constructor
  · intro hcmd h
    have hpos := strlen_pos_of_head s.inputBuffer 'f' (by decide) hcmd
    have hp : processInput tbl env s = setFixedOffTimeOffset env s := by
      unfold processInput
      simp only [hcmd]
      rw [if_neg (by decide), if_neg (by decide), if_neg (by decide), if_pos trivial]
    rw [hp]
    by_cases hl : 4 < strlen s.inputBuffer
    · exact setFixedOffTimeOffset_long env s hl
    · rcases h with h | ⟨n, hn, hr⟩
      · exact absurd h hl
      · rw [setFixedOffTimeOffset_short env s hpos (by omega), hn]
        simp only [scanned, List.get?_cons_zero, Option.getD_some]
        rw [if_pos (by omega)]
  · intro hcmd h
    have hpos := strlen_pos_of_head s.inputBuffer 'x' (by decide) hcmd
    have hp : processInput tbl env s = setXtraMinutes env s := by
      unfold processInput
      simp only [hcmd]
      rw [if_neg (by decide), if_neg (by decide), if_neg (by decide), if_neg (by decide),
        if_pos trivial]
    rw [hp]
    by_cases hl : 4 < strlen s.inputBuffer
    · exact setXtraMinutes_long env s hl
    · rcases h with h | ⟨n, hn, hr⟩
      · exact absurd h hl
      · rw [setXtraMinutes_short env s hpos (by omega), hn]
        simp only [scanned, List.get?_cons_zero, Option.getD_some]
        rw [if_pos (by omega)]

/-- C13: `isValidDate` is true exactly when the month is in 1..12 and the day
is in 1..`maxDay` of the month (29 for February, no leap year check), for all
integers, zero and negative ones included. -/
theorem C13_isValidDate_iff (cmonth cdate : Int) :
    isValidDate cmonth cdate = true ↔
      1 ≤ cmonth ∧ cmonth ≤ 12 ∧ 1 ≤ cdate ∧ cdate ≤ maxDay cmonth := by
  unfold isValidDate maxDay
  simp only [Bool.not_eq_true', Bool.or_eq_false_iff, Bool.and_eq_false_imp, Bool.or_eq_true,
    decide_eq_true_eq, decide_eq_false_iff_not]
  split_ifs <;> omega

/-- For a valid HHmm value, `time2Offset` is a minute of the day and
`offset2Time` undoes it. -/
theorem time2Offset_valid (h : Int) (hv : ValidHHmm h) :
    0 ≤ time2Offset h ∧ time2Offset h < 1440 ∧ offset2Time (time2Offset h) = h := by
  obtain ⟨h0, h1, h2⟩ := hv
  have e := time2Offset_nonneg h h0
  have hnn : 0 ≤ time2Offset h := by rw [e]; omega
  rw [offset2Time_nonneg _ hnn, e]
  omega

/-- C15: HHmm and minutes round trip. For every minute count m with
0 <= m < 1440, `offset2Time m` is a valid HHmm value and
`time2Offset (offset2Time m) = m`; for every valid HHmm value h,
`offset2Time (time2Offset h) = h`. -/
theorem C15_round_trip :
    (∀ m : Int, 0 ≤ m → m < 1440 →
      ValidHHmm (offset2Time m) ∧ time2Offset (offset2Time m) = m) ∧
    (∀ h : Int, ValidHHmm h → offset2Time (time2Offset h) = h) :=
  ⟨fun m h0 h1 => offset2Time_valid m h0 h1, fun h hv => (time2Offset_valid h hv).2.2⟩

/-- C15 at 14:30, minute 870 of the day. -/
theorem C15_round_trip_witness :
    (ValidHHmm (offset2Time 870) ∧ time2Offset (offset2Time 870) = 870) ∧
    offset2Time (time2Offset 1430) = 1430 :=
  ⟨C15_round_trip.1 870 (by decide) (by decide), C15_round_trip.2 1430 (by decide)⟩

/-- On valid HHmm values `time2Offset` keeps the order, both ways. -/
theorem time2Offset_le_iff (a b : Int) (ha : ValidHHmm a) (hb : ValidHHmm b) :
    a ≤ b ↔ time2Offset a ≤ time2Offset b := by
  obtain ⟨a0, a1, a2⟩ := ha
  obtain ⟨b0, b1, b2⟩ := hb
  rw [time2Offset_nonneg a a0, time2Offset_nonneg b b0]
  omega

/-- C16: HHmm order is chronological order. For valid HHmm values a and b,
`a <= b` if and only if `time2Offset a <= time2Offset b`; hence the closed
interval test `LightsOff <= ctime && ctime <= LightsOn` of `checkLights` agrees
with the same test on minutes since midnight when the three values are valid. -/
theorem C16_order_chronological (a b : Int) (ha : ValidHHmm a) (hb : ValidHHmm b) :
    (a ≤ b ↔ time2Offset a ≤ time2Offset b) ∧
    (∀ ctime : Int, ValidHHmm ctime →
      ((a ≤ ctime ∧ ctime ≤ b) ↔
        (time2Offset a ≤ time2Offset ctime ∧ time2Offset ctime ≤ time2Offset b))) := by
  refine ⟨time2Offset_le_iff a b ha hb, fun c hc => ?_⟩
  rw [time2Offset_le_iff a c ha hc, time2Offset_le_iff c b hc hb]

/-- C16 at 06:59 and 07:00: one minute apart in both orders. -/
theorem C16_order_chronological_witness :
    ((659 : Int) ≤ 700 ↔ time2Offset 659 ≤ time2Offset 700) ∧ time2Offset 700 = time2Offset 659 + 1 :=
  ⟨(C16_order_chronological 659 700 (by decide) (by decide)).1, by decide⟩

/-- With the time set, `checkLights` leaves the lights off exactly when the
clock time is inside the window. -/
theorem checkLights_off_iff (tbl : SunRiseSetTable) (env : Env) (s : State)
    (hset : env.timeStatus = TimeStatus.timeSet) :
    (checkLights tbl env s).lightsPin = false ↔
      ((getTimeInfo tbl s env.now.month env.now.day).LightsOff
          ≤ env.now.hour * 100 + env.now.minute ∧
        env.now.hour * 100 + env.now.minute
          ≤ (getTimeInfo tbl s env.now.month env.now.day).LightsOn) := by
  unfold checkLights
  simp only [hset, ne_eq, not_true_eq_false, if_false]
  split_ifs with hw
  · simp [lightsOff, digitalWrite, emit, hw]
  · simp [lightsOn, digitalWrite, emit, hw]

/-- The window with `xtraMinutes = x` lies inside the window with
`xtraMinutes = 0`, the override being disabled. -/
theorem window_shrinks (tbl : SunRiseSetTable) (s : State) (cmonth cdate : Int) (x : Nat)
    (hrise : ValidHHmm (tbl (cmonth - 1) (cdate - 1) 0))
    (hset : ValidHHmm (tbl (cmonth - 1) (cdate - 1) 1))
    (hoff : time2Offset (tbl (cmonth - 1) (cdate - 1) 0) + (x : Int) < 1440)
    (hon : 0 ≤ time2Offset (tbl (cmonth - 1) (cdate - 1) 1) - (x : Int))
    (hfix : s.fixedOffTimeOffset = 255) :
    (getTimeInfo tbl { s with xtraMinutes := 0 } cmonth cdate).LightsOff
      ≤ (getTimeInfo tbl { s with xtraMinutes := x } cmonth cdate).LightsOff ∧
    (getTimeInfo tbl { s with xtraMinutes := x } cmonth cdate).LightsOn
      ≤ (getTimeInfo tbl { s with xtraMinutes := 0 } cmonth cdate).LightsOn := by
  obtain ⟨r0, r1, r2⟩ := hrise
  obtain ⟨s0, s1, s2⟩ := hset
  have er := time2Offset_nonneg _ r0
  have es := time2Offset_nonneg _ s0
  by_cases hx : x = 0
  · subst hx
    exact ⟨le_refl _, le_refl _⟩
  · have hpos : x > 0 := Nat.pos_of_ne_zero hx
    have h0 : getTimeInfo tbl { s with xtraMinutes := 0 } cmonth cdate =
        { LightsOff := tbl (cmonth - 1) (cdate - 1) 0, SunRise := tbl (cmonth - 1) (cdate - 1) 0,
          LightsOn := tbl (cmonth - 1) (cdate - 1) 1, SunSet := tbl (cmonth - 1) (cdate - 1) 1 } := by
      unfold getTimeInfo
      simp [hfix, FIXED_OFF_TIME_DISABLED]
    have hxx : getTimeInfo tbl { s with xtraMinutes := x } cmonth cdate =
        { LightsOff := offset2Time (time2Offset (tbl (cmonth - 1) (cdate - 1) 0) + (x : Int)),
          SunRise := tbl (cmonth - 1) (cdate - 1) 0,
          LightsOn := offset2Time (time2Offset (tbl (cmonth - 1) (cdate - 1) 1) - (x : Int)),
          SunSet := tbl (cmonth - 1) (cdate - 1) 1 } := by
      unfold getTimeInfo
      simp [hfix, FIXED_OFF_TIME_DISABLED, hpos]
    rw [h0, hxx]
    simp only []
    rw [offset2Time_nonneg _ (by omega), offset2Time_nonneg _ hon, er, es]
    rw [er] at hoff
    rw [es] at hon
    omega

/-- C17 (amended): extra minutes narrow the OFF window. For valid sunrise <=
sunset, `xtraMinutes` x in [1,255] that does not cross midnight and the fixed
override disabled, the OFF interval computed with x is contained in the OFF
interval computed with 0: every clock time at which `checkLights` switches the
lights off with `xtraMinutes = x` also switches them off with
`xtraMinutes = 0`. -/
theorem C17_extra_minutes_narrow_off (tbl : SunRiseSetTable) (env : Env) (s : State) (x : Nat)
    (htime : env.timeStatus = TimeStatus.timeSet)
    (hrise : ValidHHmm (tbl (env.now.month - 1) (env.now.day - 1) 0))
    (hset : ValidHHmm (tbl (env.now.month - 1) (env.now.day - 1) 1))
    (_hle : tbl (env.now.month - 1) (env.now.day - 1) 0 ≤ tbl (env.now.month - 1) (env.now.day - 1) 1)
    (_hx1 : 1 ≤ x) (_hx2 : x ≤ 255)
    (hoff : time2Offset (tbl (env.now.month - 1) (env.now.day - 1) 0) + (x : Int) < 1440)
    (hon : 0 ≤ time2Offset (tbl (env.now.month - 1) (env.now.day - 1) 1) - (x : Int))
    (hfix : s.fixedOffTimeOffset = 255) :
    ((getTimeInfo tbl { s with xtraMinutes := 0 } env.now.month env.now.day).LightsOff
        ≤ (getTimeInfo tbl { s with xtraMinutes := x } env.now.month env.now.day).LightsOff ∧
      (getTimeInfo tbl { s with xtraMinutes := x } env.now.month env.now.day).LightsOn
        ≤ (getTimeInfo tbl { s with xtraMinutes := 0 } env.now.month env.now.day).LightsOn) ∧
    ((checkLights tbl env { s with xtraMinutes := x }).lightsPin = false →
      (checkLights tbl env { s with xtraMinutes := 0 }).lightsPin = false) := by
  have hw := window_shrinks tbl s env.now.month env.now.day x hrise hset hoff hon hfix
  refine ⟨hw, fun h => ?_⟩
  rw [checkLights_off_iff tbl env _ htime] at h ⊢
  exact ⟨le_trans hw.1 h.1, le_trans h.2 hw.2⟩

/-- C17 as stated fails: on 15 June of the sample table (06:30, 19:45) at 06:30
the lights are switched off with `xtraMinutes = 0` and switched on with
`xtraMinutes = 45`, whose OFF window is 07:15 to 19:00. -/
theorem C17_counterexample :
    ValidHHmm (sampleTable (6 - 1) (15 - 1) 0) ∧ ValidHHmm (sampleTable (6 - 1) (15 - 1) 1) ∧
    sampleTable (6 - 1) (15 - 1) 0 ≤ sampleTable (6 - 1) (15 - 1) 1 ∧
    time2Offset (sampleTable (6 - 1) (15 - 1) 0) + 45 < 1440 ∧
    0 ≤ time2Offset (sampleTable (6 - 1) (15 - 1) 1) - 45 ∧
    (checkLights sampleTable (sampleEnv 20 6 30)
      { initialState erasedEeprom with xtraMinutes := 0 }).lightsPin = false ∧
    (checkLights sampleTable (sampleEnv 20 6 30)
      { initialState erasedEeprom with xtraMinutes := 45 }).lightsPin = true ∧
    getTimeInfo sampleTable { initialState erasedEeprom with xtraMinutes := 45 } 6 15
      = { LightsOff := 715, SunRise := 630, LightsOn := 1900, SunSet := 1945 } := by
  decide

/-- C17 (amended) on 15 June of the sample table at 12:00 with 45 extra
minutes: off with 45, hence off with 0. -/
theorem C17_extra_minutes_narrow_off_witness :
    (checkLights sampleTable (sampleEnv 20 12 0)
      { initialState erasedEeprom with xtraMinutes := 45 }).lightsPin = false ∧
    (checkLights sampleTable (sampleEnv 20 12 0)
      { initialState erasedEeprom with xtraMinutes := 0 }).lightsPin = false :=
  ⟨by decide,
    (C17_extra_minutes_narrow_off sampleTable (sampleEnv 20 12 0) (initialState erasedEeprom) 45
      (by decide) (by decide) (by decide) (by decide) (by decide) (by decide) (by decide)
      (by decide) (by decide)).2 (by decide)⟩

/-- Writing at index `k` leaves the first `k` entries alone. -/
theorem take_set_same {α : Type} (l : List α) (k : Nat) (c : α) :
    (l.set k c).take k = l.take k := by
  induction l generalizing k with
  | nil => simp
  | cons a t ih =>
    cases k with
    | zero => simp
    | succ j => simp [ih]

/-- Writing at index `k` of the array makes `c` the entry after the first `k`. -/
theorem take_succ_set {α : Type} (l : List α) (k : Nat) (c : α) (h : k < l.length) :
    (l.set k c).take (k + 1) = l.take k ++ [c] := by
  induction l generalizing k with
  | nil => simp at h
  | cons a t ih =>
    cases k with
    | zero => simp
    | succ j =>
      have hj : j < t.length := by simpa using h
      simp [ih j hj]

/-- The state with an empty in-progress line spells the empty line. -/
theorem spells_nil (s : State) (hlen : s.inputBuffer.length = MAX_INPUT_LEN + 1)
    (hndx : s.ndx = 0) : Spells s [] := by
  refine ⟨hlen, ?_, ?_, ?_⟩ <;> simp [hndx]

/-- A state that spells a line has its index in bounds. -/
theorem inputOk_of_spells (s : State) (cur : List Char) (h : Spells s cur) : InputOk s := by
  obtain ⟨h1, h2, h3, _⟩ := h
  unfold InputOk
  simp only [MAX_INPUT_LEN, Nat.cast_ofNat] at h3 ⊢
  exact ⟨h1, by omega, by omega⟩

/-- A state with its index in bounds spells the first `ndx` characters of its buffer. -/
theorem spells_of_inputOk (s : State) (h : InputOk s) :
    Spells s (s.inputBuffer.take s.ndx.toNat) := by
  obtain ⟨h1, h2, h3⟩ := h
  simp only [MAX_INPUT_LEN, Nat.cast_ofNat] at h1 h3
  have hl : (s.inputBuffer.take s.ndx.toNat).length = s.ndx.toNat := by
    rw [List.length_take, h1]
    omega
  refine ⟨h1, ?_, ?_, ?_⟩
  · rw [hl]; omega
  · rw [hl]; simp only [MAX_INPUT_LEN]; omega
  · rw [hl]

/-- One character that is no newline: `readChar` does not complete a line, and
the in-progress line moves by `pendingStep`. -/
theorem readChar_spells (c : Char) (s : State) (cur : List Char) (hc : c ≠ '\n')
    (h : Spells s cur) :
    ∃ s1, readChar c s = some (false, s1) ∧ Spells s1 (pendingStep cur c) := by
  obtain ⟨h1, h2, h3, h4⟩ := h
  simp only [MAX_INPUT_LEN] at h1 h3
  unfold readChar pendingStep
  by_cases hr : c = '\r'
  · simp only [hr, if_true]
    exact ⟨s, rfl, h1, h2, h3, h4⟩
  · simp only [hr, if_false]
    by_cases hb : c = BACKSPACE
    · simp only [hb, if_true]
      exact ⟨_, rfl, by simpa [emit] using h1, by simp [emit], by simp, by simp⟩
    · simp only [hb, if_false, hc]
      by_cases hlt : cur.length < MAX_INPUT_LEN
      · have hlt2 : s.ndx < (MAX_INPUT_LEN : Int) := by rw [h2]; exact_mod_cast hlt
        have hlt31 : cur.length < 31 := by simpa [MAX_INPUT_LEN] using hlt
        have hin : 0 ≤ s.ndx ∧ s.ndx < (s.inputBuffer.length : Int) := by
          rw [h2, h1]; omega
        simp only [hlt2, hlt, if_true, writeInputBuffer, hin, and_self]
        have hk : s.ndx.toNat = cur.length := by omega
        refine ⟨_, rfl, ?_, ?_, ?_, ?_⟩
        · simp [emit, h1, MAX_INPUT_LEN]
        · simp [emit, h2]
        · simp only [List.length_append, List.length_singleton, MAX_INPUT_LEN]; omega
        · simp only [emit, hk, List.length_append, List.length_singleton]
          rw [take_succ_set _ _ _ (by omega), h4]
      · have hlt2 : ¬ s.ndx < (MAX_INPUT_LEN : Int) := by
          rw [h2]; intro hh; exact hlt (by exact_mod_cast hh)
        simp only [hlt2, hlt, if_false]
        exact ⟨_, rfl, by simpa [inputOverflowNotice, emit, MAX_INPUT_LEN] using h1,
          by simpa [inputOverflowNotice, emit] using h2, by simpa [MAX_INPUT_LEN] using h3,
          by simpa [inputOverflowNotice, emit] using h4⟩

/-- The newline: `readChar` completes the line, terminates it with NUL and
resets `ndx`. -/
theorem readChar_newline (s : State) (cur : List Char) (h : Spells s cur) :
    ∃ s1, readChar '\n' s = some (true, s1) ∧ s1.ndx = 0 ∧
      s1.inputBuffer.length = MAX_INPUT_LEN + 1 ∧
      s1.inputBuffer.take (cur.length + 1) = cur ++ [NUL] ∧
      s1.log = s.log ++ [Effect.print "\n"] := by
  obtain ⟨h1, h2, h3, h4⟩ := h
  simp only [MAX_INPUT_LEN] at h1 h3
  have hin : 0 ≤ s.ndx ∧ s.ndx < (s.inputBuffer.length : Int) := by
    rw [h2, h1]; omega
  have hk : s.ndx.toNat = cur.length := by omega
  have h0 : ¬ ('\n' = '\r') := by decide
  have h8 : ¬ ('\n' = BACKSPACE) := by decide
  unfold readChar
  simp only [h0, h8, if_false, if_true, writeInputBuffer, hin, and_self]
  refine ⟨_, rfl, by simp [emit], by simp [emit, h1, MAX_INPUT_LEN], ?_, by simp [emit]⟩
  simp only [emit, hk]
  rw [take_succ_set _ _ _ (by omega), h4]

/-- One character that is no newline adds an overflow notice exactly when it
is an ordinary character and the in-progress line is full. -/
theorem readChar_notices (c : Char) (s s1 : State) (b : Bool) (hc : c ≠ '\n')
    (h : readChar c s = some (b, s1)) :
    overflowNotices s1.log = overflowNotices s.log +
      (if c ≠ '\r' ∧ c ≠ BACKSPACE ∧ ¬ s.ndx < (MAX_INPUT_LEN : Int) then 1 else 0) := by
  unfold readChar at h
  by_cases hr : c = '\r'
  · simp only [hr, if_true, Option.some.injEq, Prod.mk.injEq] at h
    simp [hr, ← h.2]
  · simp only [hr, if_false] at h
    by_cases hb : c = BACKSPACE
    · simp only [hb, if_true, Option.some.injEq, Prod.mk.injEq] at h
      simp only [hb, ne_eq, not_true_eq_false, false_and, and_false, if_false, ← h.2, emit,
        overflowNotices, List.count_append, add_zero, add_right_eq_self]
      decide
    · simp only [hb, if_false, hc] at h
      by_cases hlt : s.ndx < (MAX_INPUT_LEN : Int)
      · simp only [hlt, if_true, writeInputBuffer] at h
        split_ifs at h with hin
        · simp only [Option.some.injEq, Prod.mk.injEq] at h
          simp [hlt, ← h.2, emit, overflowNotices, List.count_append]
      · simp only [hlt, if_false, Option.some.injEq, Prod.mk.injEq] at h
        simp only [ne_eq, hr, not_false_eq_true, hb, hlt, and_self, if_true, ← h.2,
          inputOverflowNotice, emit, overflowNotices, List.count_append, List.append_assoc]
        rw [Nat.add_left_cancel_iff]
        decide

/-- Characters up to and including a newline: `readInput` completes a line,
terminated with NUL, that holds the in-progress line `pending` computes, and
leaves the characters after the newline in `Serial`. -/
theorem readInput_line (l rest : List Char) (s : State) (cur : List Char)
    (hl : ∀ c ∈ l, c ≠ '\n') (h : Spells s cur) :
    ∃ s1, readInput (l ++ '\n' :: rest) s = some (true, s1, rest) ∧ s1.ndx = 0 ∧
      s1.inputBuffer.length = MAX_INPUT_LEN + 1 ∧
      s1.inputBuffer.take ((pending cur l).length + 1) = pending cur l ++ [NUL] := by
  induction l generalizing s cur with
  | nil =>
    obtain ⟨s1, e, h1, h2, h3, _⟩ := readChar_newline s cur h
    exact ⟨s1, by simp [readInput, e], h1, h2, by simpa [pending] using h3⟩
  | cons c t ih =>
    obtain ⟨s1, e, hs⟩ := readChar_spells c s cur (hl c (List.mem_cons_self _ _)) h
    obtain ⟨s2, e2, r⟩ := ih s1 (pendingStep cur c)
      (fun x hx => hl x (List.mem_cons_of_mem _ hx)) hs
    exact ⟨s2, by simp [readInput, e, e2], by simpa [pending] using r⟩

/-- Characters without newline: `readInput` reports no line and keeps the
in-progress line `pending` computes. -/
theorem readInput_pending (l : List Char) (s : State) (cur : List Char)
    (hl : ∀ c ∈ l, c ≠ '\n') (h : Spells s cur) :
    ∃ s1, readInput l s = some (false, s1, []) ∧ Spells s1 (pending cur l) := by
  induction l generalizing s cur with
  | nil => exact ⟨s, by simp [readInput], by simpa [pending] using h⟩
  | cons c t ih =>
    obtain ⟨s1, e, hs⟩ := readChar_spells c s cur (hl c (List.mem_cons_self _ _)) h
    obtain ⟨s2, e2, r⟩ := ih s1 (pendingStep cur c)
      (fun x hx => hl x (List.mem_cons_of_mem _ hx)) hs
    exact ⟨s2, by simp [readInput, e, e2], by simpa [pending] using r⟩

/-- Without cancel characters the in-progress line grows by the characters
that are no carriage return, up to `MAX_INPUT_LEN`. -/
theorem pending_no_cancel (l cur : List Char) (hl : ∀ c ∈ l, c ≠ BACKSPACE)
    (hcur : cur.length ≤ MAX_INPUT_LEN) :
    pending cur l = (cur ++ l.filter (fun c => c ≠ '\r')).take MAX_INPUT_LEN := by
  induction l generalizing cur with
  | nil => simp [pending, List.take_of_length_le hcur]
  | cons c t ih =>
    have hb : c ≠ BACKSPACE := hl c (List.mem_cons_self _ _)
    have ht : ∀ x ∈ t, x ≠ BACKSPACE := fun x hx => hl x (List.mem_cons_of_mem _ hx)
    show pending (pendingStep cur c) t = _
    unfold pendingStep
    by_cases hr : c = '\r'
    · simp only [hr, if_true]
      rw [ih cur ht hcur]
      simp
    · simp only [hr, hb, if_false]
      have hf : List.filter (fun c => decide (c ≠ '\r')) (c :: t)
          = c :: List.filter (fun c => decide (c ≠ '\r')) t := by
        simp [List.filter_cons, hr]
      rw [hf]
      by_cases hlt : cur.length < MAX_INPUT_LEN
      · simp only [hlt, if_true]
        rw [ih (cur ++ [c]) ht (by simp; omega)]
        simp
      · simp only [hlt, if_false]
        have he : cur.length = MAX_INPUT_LEN := by omega
        rw [ih cur ht hcur, List.take_append_of_le_length (by omega),
          List.take_append_of_le_length (by omega)]

/-- A cancel character empties the in-progress line. -/
theorem pending_cancel (pre post cur : List Char) :
    pending cur (pre ++ BACKSPACE :: post) = pending [] post := by
  have h8 : ¬ (BACKSPACE = '\r') := by decide
  simp [pending, List.foldl_append, pendingStep, h8]

/-- The first entry `dropWhile` keeps fails the test. -/
theorem dropWhile_head_not {α : Type} (p : α → Bool) (l : List α) (b : α) (t : List α)
    (h : l.dropWhile p = b :: t) : p b = false := by
  induction l with
  | nil => simp at h
  | cons a r ih =>
    rw [List.dropWhile_cons] at h
    split_ifs at h with ha
    · exact ih h
    · simp only [List.cons.injEq] at h
      rw [← h.1]
      simpa using ha

/-- A stream splits at its last cancel character. -/
theorem afterLastCancel_split (stream : List Char) :
    (stream = afterLastCancel stream ∨
      ∃ pre, stream = pre ++ BACKSPACE :: afterLastCancel stream) ∧
    ∀ c ∈ afterLastCancel stream, c ≠ BACKSPACE := by
  constructor
  · have hsplit := List.takeWhile_append_dropWhile (fun c => decide (c ≠ BACKSPACE)) stream.reverse
    have hrev : stream = (stream.reverse.dropWhile (fun c => decide (c ≠ BACKSPACE))).reverse
        ++ afterLastCancel stream := by
      unfold afterLastCancel
      rw [← List.reverse_append, hsplit, List.reverse_reverse]
    cases hd : stream.reverse.dropWhile (fun c => decide (c ≠ BACKSPACE)) with
    | nil =>
      left
      rw [hd] at hrev
      simpa using hrev
    | cons b t =>
      right
      have hb : b = BACKSPACE := by
        have := dropWhile_head_not (fun c => decide (c ≠ BACKSPACE)) stream.reverse b t hd
        simpa using this
      refine ⟨t.reverse, ?_⟩
      rw [hd, hb] at hrev
      simpa using hrev
  · intro c hc
    unfold afterLastCancel at hc
    rw [List.mem_reverse] at hc
    simpa using List.mem_takeWhile_imp hc

/-- The in-progress line after a stream, started empty or canceled on the
way, is the line the stream spells. -/
theorem pending_eq_spelledLine (stream cur : List Char)
    (h : cur = [] ∨ BACKSPACE ∈ stream) :
    pending cur stream = spelledLine stream := by
  obtain ⟨hsplit, hno⟩ := afterLastCancel_split stream
  have hbase : pending [] (afterLastCancel stream) = spelledLine stream := by
    rw [pending_no_cancel _ [] hno (by simp)]
    simp [spelledLine]
  rcases hsplit with hs | ⟨pre, hs⟩
  · rcases h with h | h
    · rw [h]
      conv_lhs => rw [hs]
      exact hbase
    · rw [hs] at h
      exact absurd rfl (hno _ h)
  · conv_lhs => rw [hs]
    rw [pending_cancel]
    exact hbase

/-- The C string of an array that holds `l`, without NUL, followed by NUL. -/
theorem cstr_of_take (buf l : List Char) (hnul : ∀ c ∈ l, c ≠ NUL)
    (h : buf.take (l.length + 1) = l ++ [NUL]) : cstr buf = l := by
  have hb : buf = (l ++ [NUL]) ++ buf.drop (l.length + 1) := by
    rw [← h, List.take_append_drop]
  rw [hb]
  unfold cstr
  rw [List.append_assoc, List.takeWhile_append_of_pos (by simpa using hnul)]
  simp [List.takeWhile_cons]

/-- Ordinary characters and a newline: the number of overflow notices is the
number of characters beyond `MAX_INPUT_LEN`. -/
theorem readInput_ordinary_notices (l rest : List Char) (s s1 : State) (cur : List Char)
    (hl : ∀ c ∈ l, c ≠ '\r' ∧ c ≠ '\n' ∧ c ≠ BACKSPACE) (h : Spells s cur)
    (e : readInput (l ++ '\n' :: rest) s = some (true, s1, rest)) :
    overflowNotices s1.log
      = overflowNotices s.log + (cur.length + l.length - MAX_INPUT_LEN) := by
  induction l generalizing s cur with
  | nil =>
    obtain ⟨s2, e2, _, _, _, hlog⟩ := readChar_newline s cur h
    simp only [List.nil_append, readInput, e2, Option.some.injEq, Prod.mk.injEq, true_and] at e
    have h3 := h.2.2.1
    rw [← e.1, hlog]
    simp only [overflowNotices, List.count_append, List.length_nil, add_zero]
    have hz : cur.length - MAX_INPUT_LEN = 0 := by omega
    have hp : List.count (Effect.println "\nInput overflow.") [Effect.print "\n"] = 0 := by
      decide
    rw [hz, hp]
  | cons c t ih =>
    obtain ⟨hr, hn, hb⟩ := hl c (List.mem_cons_self _ _)
    obtain ⟨s2, e2, hs⟩ := readChar_spells c s cur hn h
    have hcount := readChar_notices c s s2 false hn e2
    simp only [List.cons_append, readInput, e2] at e
    have hrest := ih s2 (pendingStep cur c)
      (fun x hx => hl x (List.mem_cons_of_mem _ hx)) hs e
    have h2 := h.2.1
    have h3 := h.2.2.1
    rw [hrest, hcount]
    unfold pendingStep
    simp only [hr, hb, if_false, ne_eq, not_false_eq_true, true_and, List.length_cons]
    by_cases hlt : cur.length < MAX_INPUT_LEN
    · have hlt2 : s.ndx < (MAX_INPUT_LEN : Int) := by rw [h2]; exact_mod_cast hlt
      simp only [hlt, hlt2, if_true, not_true_eq_false, if_false, List.length_append,
        List.length_singleton]
      omega
    · have hlt2 : ¬ s.ndx < (MAX_INPUT_LEN : Int) := by
        rw [h2]; intro hh; exact hlt (by exact_mod_cast hh)
      simp only [hlt, hlt2, if_false, not_false_eq_true, if_true]
      omega

/-- One call on a whole line: from an empty in-progress line, n ordinary
characters and a newline leave the first min(n,31) characters and the NUL in
the buffer and add n - 31 overflow notices. -/
theorem readInput_bounded_line (chars rest : List Char) (s : State)
    (hlen : s.inputBuffer.length = MAX_INPUT_LEN + 1) (hndx : s.ndx = 0)
    (hord : ∀ c ∈ chars, c ≠ '\r' ∧ c ≠ '\n' ∧ c ≠ BACKSPACE) :
    ∃ s1, readInput (chars ++ '\n' :: rest) s = some (true, s1, rest) ∧
      s1.inputBuffer.take (min chars.length 31 + 1) = chars.take 31 ++ [NUL] ∧
      ((∀ c ∈ chars, c ≠ NUL) → cstr s1.inputBuffer = chars.take 31) ∧
      overflowNotices s1.log = overflowNotices s.log + (chars.length - 31) := by
  have hsp := spells_nil s hlen hndx
  obtain ⟨s1, e, _, _, htake⟩ := readInput_line chars rest s []
    (fun c hc => (hord c hc).2.1) hsp
  have hcount := readInput_ordinary_notices chars rest s s1 [] hord hsp e
  have hfil : List.filter (fun c => decide (c ≠ '\r')) chars = chars :=
    List.filter_eq_self.mpr (fun c hc => by simpa using (hord c hc).1)
  have hp : pending [] chars = chars.take 31 := by
    rw [pending_no_cancel chars [] (fun c hc => (hord c hc).2.2) (by simp), hfil]
    simp [MAX_INPUT_LEN]
  rw [hp] at htake
  have hl31 : (chars.take 31).length = min chars.length 31 := by
    rw [List.length_take, Nat.min_comm]
  refine ⟨s1, e, ?_, ?_, ?_⟩
  · rw [← hl31]
    exact htake
  · intro hnul
    exact cstr_of_take _ _ (fun c hc => hnul c (List.mem_of_mem_take hc)) htake
  · simpa [MAX_INPUT_LEN] using hcount

/-- One call on a whole line: for a character stream up to its first
newline, fed to a state whose in-progress line is empty or canceled by the
stream, `readInput` hands off the line the stream spells; carriage returns do
not change that line and a cancel discards what precedes it. -/
theorem readInput_spelled_line (stream rest : List Char) (s : State)
    (hok : InputOk s) (hstart : s.ndx = 0 ∨ BACKSPACE ∈ stream)
    (hnl : ∀ c ∈ stream, c ≠ '\n') :
    (∃ s1, readInput (stream ++ '\n' :: rest) s = some (true, s1, rest) ∧
      s1.inputBuffer.take ((spelledLine stream).length + 1) = spelledLine stream ++ [NUL] ∧
      ((∀ c ∈ stream, c ≠ NUL) → cstr s1.inputBuffer = spelledLine stream)) ∧
    spelledLine (stream.filter (fun c => c ≠ '\r')) = spelledLine stream ∧
    (∀ pre : List Char, spelledLine (pre ++ BACKSPACE :: stream) = spelledLine stream) := by
  have hsp := spells_of_inputOk s hok
  have hcur : List.take s.ndx.toNat s.inputBuffer = [] ∨ BACKSPACE ∈ stream := by
    rcases hstart with h | h
    · left; simp [h]
    · right; exact h
  obtain ⟨s1, e, _, _, htake⟩ := readInput_line stream rest s _ hnl hsp
  rw [pending_eq_spelledLine stream _ hcur] at htake
  have hmem : ∀ c ∈ spelledLine stream, c ∈ stream := by
    intro c hc
    have h1 := List.mem_of_mem_take hc
    have h2 := List.mem_of_mem_filter h1
    unfold afterLastCancel at h2
    rw [List.mem_reverse] at h2
    exact List.mem_reverse.mp ((List.takeWhile_sublist _).subset h2)
  refine ⟨⟨s1, e, htake, fun hnul => cstr_of_take _ _ (fun c hc => hnul c (hmem c hc)) htake⟩,
    ?_, fun pre => ?_⟩
  · rw [← pending_eq_spelledLine _ [] (Or.inl rfl), ← pending_eq_spelledLine stream [] (Or.inl rfl)]
    have h13 : ¬ ('\r' = BACKSPACE) := by decide
    have hgen : ∀ (l cur : List Char),
        pending cur (l.filter (fun c => c ≠ '\r')) = pending cur l := by
      intro l
      induction l with
      | nil => intro cur; rfl
      | cons c t ih =>
        intro cur
        by_cases hr : c = '\r'
        · simp only [hr, ne_eq, not_true_eq_false, decide_False, Bool.false_eq_true,
            not_false_eq_true, List.filter_cons_of_neg]
          rw [ih cur]
          simp [pending, pendingStep]
        · have hf : List.filter (fun c => decide (c ≠ '\r')) (c :: t)
              = c :: List.filter (fun c => decide (c ≠ '\r')) t := by
            simp [List.filter_cons, hr]
          rw [hf]
          show pending (pendingStep cur c) _ = pending (pendingStep cur c) t
          exact ih _
    exact hgen stream []
  · rw [← pending_eq_spelledLine _ [] (Or.inl rfl), pending_cancel,
      pending_eq_spelledLine stream [] (Or.inl rfl)]

/-- One character keeps the index in bounds; a newline completes the line and
a newline or a cancel resets the index. -/
theorem readChar_inputOk (c : Char) (s : State) (hok : InputOk s) :
    ∃ b s1, readChar c s = some (b, s1) ∧ InputOk s1 ∧
      (c = '\n' → b = true ∧ s1.ndx = 0) ∧ (c = BACKSPACE → s1.ndx = 0) ∧
      (b = true → c = '\n' ∧ s1.ndx = 0) := by
  have hsp := spells_of_inputOk s hok
  by_cases hn : c = '\n'
  · obtain ⟨s1, e, h0, hlen, _, _⟩ := readChar_newline s _ hsp
    have hok1 : InputOk s1 := ⟨hlen, by rw [h0], by rw [h0]; simp⟩
    refine ⟨true, s1, by rw [hn]; exact e, hok1, fun _ => ⟨rfl, h0⟩, fun _ => h0,
      fun _ => ⟨hn, h0⟩⟩
  · obtain ⟨s1, e, hs⟩ := readChar_spells c s _ hn hsp
    refine ⟨false, s1, e, inputOk_of_spells s1 _ hs, fun h => absurd h hn, fun hb => ?_,
      fun h => by simp at h⟩
    have h8 : ¬ (BACKSPACE = '\r') := by decide
    have hp : pendingStep (List.take s.ndx.toNat s.inputBuffer) c = [] := by
      simp [pendingStep, hb, h8]
    rw [hp] at hs
    simpa using hs.2.1

/-- One call of `readInput` keeps the index in bounds and resets it when it
reports a line. -/
theorem readInput_inputOk (avail : List Char) (s : State) (hok : InputOk s) :
    ∃ b s1 rest, readInput avail s = some (b, s1, rest) ∧ InputOk s1 ∧
      (b = true → s1.ndx = 0) := by
  induction avail generalizing s with
  | nil => exact ⟨false, s, [], rfl, hok, fun h => by simp at h⟩
  | cons c t ih =>
    obtain ⟨b, s1, e, hok1, _, _, hb⟩ := readChar_inputOk c s hok
    cases b with
    | true => exact ⟨true, s1, t, by simp [readInput, e], hok1, fun _ => (hb rfl).2⟩
    | false =>
      obtain ⟨b2, s2, rest, e2, r⟩ := ih s1 hok1
      exact ⟨b2, s2, rest, by simp [readInput, e, e2], r⟩

/-- Any number of calls of `readInput` keep the index in bounds. -/
theorem readInputCalls_inputOk (calls : List (List Char)) (s : State) (hok : InputOk s) :
    ∃ s1, readInputCalls calls s = some s1 ∧ InputOk s1 := by
  induction calls generalizing s with
  | nil => exact ⟨s, rfl, hok⟩
  | cons avail more ih =>
    obtain ⟨b, s1, rest, e, hok1, _⟩ := readInput_inputOk avail s hok
    obtain ⟨s2, e2, hok2⟩ := ih s1 hok1
    exact ⟨s2, by simp [readInputCalls, e, e2], hok2⟩

/-- The globals as the C runtime initialises them have the index in bounds. -/
theorem initialState_inputOk (eeprom : Nat → Nat) : InputOk (initialState eeprom) := by
  refine ⟨?_, ?_, ?_⟩ <;> simp [initialState, MAX_INPUT_LEN]

/-- C19: the input index stays in bounds. In a state with the 32 byte buffer
and 0 <= ndx <= 31, every character is processed without a write outside the
buffer and leaves 0 <= ndx <= 31; `ndx` is 0 after a newline (the completed
line) and after a cancel; so it is for one call of `readInput` on any
characters, and for any number of calls from the initial state. -/
theorem C19_input_index_bounds :
    (∀ (c : Char) (s : State), InputOk s →
      ∃ b s1, readChar c s = some (b, s1) ∧ InputOk s1 ∧
        (c = '\n' → b = true ∧ s1.ndx = 0) ∧ (c = BACKSPACE → s1.ndx = 0) ∧
        (b = true → c = '\n' ∧ s1.ndx = 0)) ∧
    (∀ (avail : List Char) (s : State), InputOk s →
      ∃ b s1 rest, readInput avail s = some (b, s1, rest) ∧ InputOk s1 ∧
        (b = true → s1.ndx = 0)) ∧
    (∀ (calls : List (List Char)) (eeprom : Nat → Nat),
      ∃ s1, readInputCalls calls (initialState eeprom) = some s1 ∧ InputOk s1) :=
  ⟨readChar_inputOk, readInput_inputOk,
    fun calls eeprom => readInputCalls_inputOk calls _ (initialState_inputOk eeprom)⟩

/-- C19 on a full buffer: with ndx = 31 one more character is dropped and the
index stays 31. -/
theorem C19_input_index_bounds_witness :
    InputOk { initialState erasedEeprom with ndx := 31 } ∧
    ∃ b s1, readChar 'a' { initialState erasedEeprom with ndx := 31 } = some (b, s1) ∧
      InputOk s1 ∧
      ('a' = '\n' → b = true ∧ s1.ndx = 0) ∧ ('a' = BACKSPACE → s1.ndx = 0) ∧
      (b = true → 'a' = '\n' ∧ s1.ndx = 0) :=
  ⟨⟨by decide, by decide, by decide⟩,
    C19_input_index_bounds.1 'a' { initialState erasedEeprom with ndx := 31 }
      ⟨by decide, by decide, by decide⟩⟩

/-- On a string of digits `scanDigits` reads the first `w` of them. -/
theorem scanDigits_width (ds : List Char) (hd : ∀ c ∈ ds, c.isDigit = true) :
    ∀ (w acc n : Nat),
      scanDigits w ds acc n
        = ((ds.take w).foldl (fun a c => a * 10 + (c.toNat - 48)) acc,
            n + (ds.take w).length, ds.drop w) := by
  induction ds with
  | nil =>
    intro w acc n
    cases w <;> simp [scanDigits]
  | cons d rest ih =>
    intro w acc n
    cases w with
    | zero => simp [scanDigits]
    | succ k =>
      have hdd : d.isDigit = true := hd d (List.mem_cons_self _ _)
      simp only [scanDigits, hdd, if_true]
      rw [ih (fun c hc => hd c (List.mem_cons_of_mem _ hc)) k _ _]
      simp [Nat.add_assoc, Nat.add_comm 1]

/-- One `%wd` conversion, `w >= 1`, on a non-empty string of digits assigns
the decimal value of its first `w` digits. -/
theorem scanInt_digits_width (w : Nat) (ds : List Char) (hw : 1 ≤ w) (hne : ds ≠ [])
    (hd : ∀ c ∈ ds, c.isDigit = true) :
    scanInt (some w) ds = some ((decimalValue (ds.take w) : Int), ds.drop w) := by
  cases ds with
  | nil => exact absurd rfl hne
  | cons d rest =>
    have hdd : d.isDigit = true := hd d (List.mem_cons_self _ _)
    have hsp : isspace d = false := isspace_of_isDigit d hdd
    have hsg := not_sign_of_isDigit d hdd
    have hall := scanDigits_width (d :: rest) hd w 0 0
    obtain ⟨k, rfl⟩ : ∃ k, w = k + 1 := ⟨w - 1, by omega⟩
    simp only [scanInt, List.dropWhile_cons, hsp, Bool.false_eq_true, if_false,
      Option.getD_some, if_neg hsg]
    rw [hall]
    simp [decimalValue]

/-- The conversions `%4d%02d%02d` on 8 digits assign the decimal values of the
first 4, the next 2 and the last 2 digits. -/
theorem sscanfInts_date (payload : List Char) (hlen : payload.length = 8)
    (hd : ∀ c ∈ payload, c.isDigit = true) :
    sscanfInts [some 4, some 2, some 2] payload
      = [(decimalValue (payload.take 4) : Int),
          (decimalValue ((payload.drop 4).take 2) : Int),
          (decimalValue (payload.drop 6) : Int)] := by
  have hne : payload ≠ [] := by
    intro h; rw [h] at hlen; simp at hlen
  have hd4 : ∀ c ∈ payload.drop 4, c.isDigit = true := fun c hc => hd c (List.mem_of_mem_drop hc)
  have hne4 : payload.drop 4 ≠ [] := by
    intro h
    have := congrArg List.length h
    simp [hlen] at this
  have hd6 : ∀ c ∈ (payload.drop 4).drop 2, c.isDigit = true :=
    fun c hc => hd4 c (List.mem_of_mem_drop hc)
  have hne6 : (payload.drop 4).drop 2 ≠ [] := by
    intro h
    have := congrArg List.length h
    simp [hlen] at this
  have h66 : ((payload.drop 4).drop 2).take 2 = payload.drop 6 := by
    rw [List.drop_drop]
    exact List.take_of_length_le (by simp [hlen])
  simp only [sscanfInts, scanInt_digits_width 4 payload (by decide) hne hd,
    scanInt_digits_width 2 (payload.drop 4) (by decide) hne4 hd4,
    scanInt_digits_width 2 ((payload.drop 4).drop 2) (by decide) hne6 hd6, h66]

/-- The command `i` is handled by `printInfo`. -/
theorem processInput_i (tbl : SunRiseSetTable) (env : Env) (s : State)
    (hcmd : s.inputBuffer.headD NUL = 'i') :
    processInput tbl env s = printInfo tbl env s := by
  unfold processInput
  simp only [hcmd]
  rw [if_neg (by decide), if_pos trivial]

/-- One more call in the log. -/
theorem emit_log_length (e : Effect) (s : State) :
    (emit e s).log.length = s.log.length + 1 := by
  simp [emit]

/-- The function `printFixedOffTime` makes two calls. -/
theorem printFixedOffTime_log_length (s : State) :
    (printFixedOffTime s).log.length = s.log.length + 2 := by
  unfold printFixedOffTime
  simp only []
  split_ifs <;> simp only [emit_log_length]

/-- The report of `printInfo` makes ten calls, so it is no rejection. -/
theorem printInfoReport_log_length (tbl : SunRiseSetTable) (env : Env) (t : Timestamp)
    (cyear cmonth cdate : Int) (s : State) :
    (printInfoReport tbl env t cyear cmonth cdate s).log.length = s.log.length + 10 ∧
    printInfoReport tbl env t cyear cmonth cdate s ≠ rejected s := by
  have hl : (printInfoReport tbl env t cyear cmonth cdate s).log.length = s.log.length + 10 := by
    simp only [printInfoReport, printTime, emit_log_length, printFixedOffTime_log_length]
  refine ⟨hl, fun h => ?_⟩
  rw [h] at hl
  simp [rejected, emit] at hl

/-- The command `i` with the time set, on a line of 9 characters from which
`sscanf` assigns year, month and day: answered by `isValidDate`. -/
theorem printInfo_parsed (tbl : SunRiseSetTable) (env : Env) (s : State) (y m d : Int)
    (hset : env.timeStatus = TimeStatus.timeSet) (hlen : strlen s.inputBuffer = 9)
    (hparse : sscanfInts [some 4, some 2, some 2] (cstr (s.inputBuffer.drop 1)) = [y, m, d]) :
    printInfo tbl env s =
      if isValidDate m d = true then printInfoReport tbl env env.now y m d s else rejected s := by
  unfold printInfo
  simp only [hlen, hset, hparse, scanned]
  rw [if_neg (by decide), if_neg (by simp), if_neg (by decide), if_pos trivial]
  cases hv : isValidDate m d <;> simp [rejected, hv]

/-- C14 (amended): validation of the `i` command when the time is set. A line
starting with `i` is answered with the date info of today when its payload is
empty, and with `Bad input.` alone when its payload has a length other than 0
and 8. A payload of 8 decimal digits yyyyMMdd is answered with the date info
of that date when its month and day satisfy `isValidDate` and with
`Bad input.` alone otherwise. More generally a payload of 8 characters from
which `sscanf` assigns year, month and day, digits or not, is answered by
`isValidDate` of the assigned month and day. The date info is never the
rejection. -/
theorem C14_i_validation (tbl : SunRiseSetTable) (env : Env) (s : State)
    (hset : env.timeStatus = TimeStatus.timeSet)
    (hcmd : s.inputBuffer.headD NUL = 'i') :
    (strlen s.inputBuffer = 1 →
      processInput tbl env s
        = printInfoReport tbl env env.now env.now.year env.now.month env.now.day s) ∧
    (strlen s.inputBuffer ≠ 1 → strlen s.inputBuffer ≠ 9 →
      processInput tbl env s = rejected s) ∧
    (∀ payload : List Char, cstr s.inputBuffer = 'i' :: payload → payload.length = 8 →
      (∀ c ∈ payload, c.isDigit = true) →
      (isValidDate (decimalValue ((payload.drop 4).take 2)) (decimalValue (payload.drop 6)) = true →
        processInput tbl env s
          = printInfoReport tbl env env.now (decimalValue (payload.take 4))
              (decimalValue ((payload.drop 4).take 2)) (decimalValue (payload.drop 6)) s) ∧
      (isValidDate (decimalValue ((payload.drop 4).take 2)) (decimalValue (payload.drop 6)) = false →
        processInput tbl env s = rejected s)) ∧
    (∀ y m d : Int, strlen s.inputBuffer = 9 →
      sscanfInts [some 4, some 2, some 2] (cstr (s.inputBuffer.drop 1)) = [y, m, d] →
      (isValidDate m d = true →
        processInput tbl env s = printInfoReport tbl env env.now y m d s) ∧
      (isValidDate m d = false → processInput tbl env s = rejected s)) ∧
    (∀ (t : Timestamp) (y m d : Int), printInfoReport tbl env t y m d s ≠ rejected s) := by
  rw [processInput_i tbl env s hcmd]
  have hgen : ∀ y m d : Int, strlen s.inputBuffer = 9 →
      sscanfInts [some 4, some 2, some 2] (cstr (s.inputBuffer.drop 1)) = [y, m, d] →
      (isValidDate m d = true →
        printInfo tbl env s = printInfoReport tbl env env.now y m d s) ∧
      (isValidDate m d = false → printInfo tbl env s = rejected s) := by
    intro y m d hlen hparse
    rw [printInfo_parsed tbl env s y m d hset hlen hparse]
    exact ⟨fun hv => by rw [if_pos hv], fun hv => by rw [if_neg (by simp [hv])]⟩
  refine ⟨fun h1 => ?_, fun h1 h9 => ?_, fun payload hline hlen hdig => ?_, hgen,
    fun t y m d => (printInfoReport_log_length tbl env t y m d s).2⟩
  · unfold printInfo
    simp only [h1, hset]
    rw [if_neg (by simp), if_neg (by simp), if_pos trivial]
  · unfold printInfo
    simp only []
    rw [if_pos ⟨fun h => h1 h.symm, fun h => h9 h.symm⟩]
    rfl
  · have h9 : strlen s.inputBuffer = 9 := by
      unfold strlen
      rw [hline]
      simp [hlen]
    have hparse := sscanfInts_date payload hlen hdig
    have hp : cstr (s.inputBuffer.drop 1) = payload := cstr_drop_one _ _ _ hline
    exact hgen _ _ _ h9 (by rw [hp]; exact hparse)

/-- C14 as stated fails: the payload of `i2023 1 1` has 8 characters that are
not all decimal digits, and the line is answered with the date info for
2023-01-01 (ten calls, the second one the `For` line), not with `Bad input.`. -/
theorem C14_counterexample :
    (sampleEnv 20 12 0).timeStatus = TimeStatus.timeSet ∧
    cstr (withLine "i2023 1 1" (initialState erasedEeprom)).inputBuffer
      = 'i' :: "2023 1 1".toList ∧
    "2023 1 1".toList.length = 8 ∧
    ¬ (∀ c ∈ "2023 1 1".toList, c.isDigit = true) ∧
    (processInput sampleTable (sampleEnv 20 12 0)
      (withLine "i2023 1 1" (initialState erasedEeprom))).log.length = 10 ∧
    (processInput sampleTable (sampleEnv 20 12 0)
      (withLine "i2023 1 1" (initialState erasedEeprom))).log.get? 1
      = some (Effect.printf "For     %04d-%02d-%02d" [2023, 1, 1]) ∧
    (processInput sampleTable (sampleEnv 20 12 0)
      (withLine "i2023 1 1" (initialState erasedEeprom))).log ≠ [Effect.println BAD_INPUT] := by
  decide

/-- C14 (amended) on the line `i20230231`: 31 February is invalid, the answer
is `Bad input.` alone. -/
theorem C14_i_validation_witness :
    processInput sampleTable (sampleEnv 20 12 0)
        (withLine "i20230231" (initialState erasedEeprom))
      = rejected (withLine "i20230231" (initialState erasedEeprom)) :=
  ((C14_i_validation sampleTable (sampleEnv 20 12 0)
      (withLine "i20230231" (initialState erasedEeprom)) (by decide) (by decide)).2.2.1
    "20230231".toList (by decide) (by decide) (by decide)).2 (by decide)

/-- The function `checkLights` does not touch `coolingOff`. -/
theorem checkLights_coolingOff (tbl : SunRiseSetTable) (env : Env) (s : State) :
    (checkLights tbl env s).coolingOff = s.coolingOff := by
  unfold checkLights
  simp only []
  split_ifs <;> simp [timeNotSetNotice, lightsOff, lightsOn, digitalWrite, emit]

/-- One pass of the periodic branch keeps "cooling off implies lights off",
and while cooling off it leaves the lights off unless the reading is below 50. -/
theorem loopCheck_cooling (tbl : SunRiseSetTable) (env : Env) (s : State)
    (hinv : s.coolingOff = true → s.lightsPin = false) :
    ((loopCheck tbl env s).coolingOff = true → (loopCheck tbl env s).lightsPin = false) ∧
    (s.coolingOff = true → (loopCheck tbl env s).lightsPin = true → getTemp env < 50) := by
  by_cases h80 : 80 ≤ getTemp env
  · have e : loopCheck tbl env s = { (checkTemp env s).2 with
        lastCheckMillis := (checkTemp env s).2.nowMillis } := by
      simp [loopCheck, checkTemp_shutdown env s h80]
    rw [e, checkTemp_shutdown env s h80]
    simp
  · by_cases h50 : 50 ≤ getTemp env
    · obtain ⟨n, d, e⟩ := checkTemp_band env s h50 (by omega)
      cases hc : s.coolingOff with
      | true =>
        have hl := hinv hc
        simp [loopCheck, e, hc, hl]
      | false =>
        simp [loopCheck, e, hc, checkLights_coolingOff]
    · have hlt : getTemp env < 50 := by omega
      simp [loopCheck, checkTemp_normal env s hlt, checkLights_coolingOff, hlt]

/-- One character changes neither the cooling flag nor the pins nor the
configuration. -/
theorem readChar_frame (c : Char) (s s1 : State) (b : Bool)
    (h : readChar c s = some (b, s1)) :
    s1.coolingOff = s.coolingOff ∧ s1.lightsPin = s.lightsPin ∧ s1.ledPin = s.ledPin ∧
      s1.fixedOffTimeOffset = s.fixedOffTimeOffset ∧ s1.xtraMinutes = s.xtraMinutes ∧
      s1.eeprom = s.eeprom := by
  unfold readChar writeInputBuffer at h
  split_ifs at h <;>
    simp only [Option.some.injEq, Prod.mk.injEq, reduceCtorEq] at h <;>
    (try (obtain ⟨_, rfl⟩ := h)) <;>
    simp [emit, inputOverflowNotice]

/-- One call of `readInput` changes neither the cooling flag nor the pins nor
the configuration. -/
theorem readInput_frame (avail : List Char) (s s1 : State) (b : Bool) (rest : List Char)
    (h : readInput avail s = some (b, s1, rest)) :
    s1.coolingOff = s.coolingOff ∧ s1.lightsPin = s.lightsPin ∧ s1.ledPin = s.ledPin ∧
      s1.fixedOffTimeOffset = s.fixedOffTimeOffset ∧ s1.xtraMinutes = s.xtraMinutes ∧
      s1.eeprom = s.eeprom := by
  induction avail generalizing s with
  | nil =>
    simp only [readInput, Option.some.injEq, Prod.mk.injEq] at h
    rw [← h.2.1]
    simp
  | cons c t ih =>
    unfold readInput at h
    cases hr : readChar c s with
    | none => simp [hr] at h
    | some r =>
      obtain ⟨b1, s2⟩ := r
      have hf := readChar_frame c s s2 b1 hr
      cases b1 with
      | true =>
        simp only [hr, Option.some.injEq, Prod.mk.injEq] at h
        rw [← h.2.1]
        exact hf
      | false =>
        simp only [hr] at h
        have h2 := ih s2 h
        obtain ⟨a1, a2, a3, a4, a5, a6⟩ := hf
        obtain ⟨b1, b2, b3, b4, b5, b6⟩ := h2
        exact ⟨b1.trans a1, b2.trans a2, b3.trans a3, b4.trans a4, b5.trans a5, b6.trans a6⟩

/-- A logged call keeps `coolingOff`. -/
theorem emit_coolingOff (e : Effect) (s : State) : (emit e s).coolingOff = s.coolingOff := rfl

/-- A logged call keeps the level of `LIGHTS_PIN`. -/
theorem emit_lightsPin (e : Effect) (s : State) : (emit e s).lightsPin = s.lightsPin := rfl

/-- A logged call keeps the level of `LED_PIN`. -/
theorem emit_ledPin (e : Effect) (s : State) : (emit e s).ledPin = s.ledPin := rfl

/-- A logged call keeps the input buffer. -/
theorem emit_inputBuffer (e : Effect) (s : State) : (emit e s).inputBuffer = s.inputBuffer := rfl

/-- A logged call keeps the input index. -/
theorem emit_ndx (e : Effect) (s : State) : (emit e s).ndx = s.ndx := rfl

/-- Every state has its own core. -/
theorem sameCore_refl (s : State) : SameCore s s :=
  ⟨rfl, rfl, rfl, rfl, rfl⟩

/-- A logged call keeps the core. -/
theorem sameCore_emit (e : Effect) (s : State) : SameCore s (emit e s) :=
  ⟨rfl, rfl, rfl, rfl, rfl⟩

/-- The function `printFixedOffTime` keeps the core. -/
theorem sameCore_printFixedOffTime (s : State) : SameCore s (printFixedOffTime s) := by
  unfold printFixedOffTime SameCore
  simp only []
  split_ifs <;>
    simp only [emit_coolingOff, emit_lightsPin, emit_ledPin, emit_inputBuffer, emit_ndx, and_self]

/-- The report of `printInfo` keeps the core. -/
theorem sameCore_printInfoReport (tbl : SunRiseSetTable) (env : Env) (t : Timestamp)
    (y m d : Int) (s : State) : SameCore s (printInfoReport tbl env t y m d s) := by
  unfold printInfoReport printTime SameCore
  simp only [emit_coolingOff, emit_lightsPin, emit_ledPin, emit_inputBuffer, emit_ndx,
    (sameCore_printFixedOffTime _).1, (sameCore_printFixedOffTime _).2.1,
    (sameCore_printFixedOffTime _).2.2.1, (sameCore_printFixedOffTime _).2.2.2.1,
    (sameCore_printFixedOffTime _).2.2.2.2, and_self]

/-- The function `printHelp` keeps the core. -/
theorem sameCore_printHelp (s : State) : SameCore s (printHelp s) := by
  unfold printHelp SameCore
  simp only [emit_coolingOff, emit_lightsPin, emit_ledPin, emit_inputBuffer, emit_ndx, and_self]

/-- The function `printInfo` keeps the core. -/
theorem sameCore_printInfo (tbl : SunRiseSetTable) (env : Env) (s : State) :
    SameCore s (printInfo tbl env s) := by
  unfold printInfo
  simp only []
  split_ifs
  · exact sameCore_emit _ _
  · exact sameCore_emit _ _
  · exact sameCore_printInfoReport _ _ _ _ _ _ _
  · exact sameCore_emit _ _
  · exact sameCore_printInfoReport _ _ _ _ _ _ _
  · exact sameCore_printInfoReport _ _ _ _ _ _ _

/-- The function `setTime` keeps the core. -/
theorem sameCore_setTime (env : Env) (s : State) : SameCore s (setTime env s) := by
  unfold setTime printTime SameCore
  simp only []
  split_ifs <;>
    simp only [emit_coolingOff, emit_lightsPin, emit_ledPin, emit_inputBuffer, emit_ndx, and_self]

/-- The function `setFixedOffTimeOffset` keeps the core. -/
theorem sameCore_setFixedOffTimeOffset (env : Env) (s : State) :
    SameCore s (setFixedOffTimeOffset env s) := by
  unfold setFixedOffTimeOffset
  simp only []
  split_ifs
  · exact sameCore_emit _ _
  · exact sameCore_emit _ _
  · exact ⟨rfl, rfl, rfl, rfl, rfl⟩

/-- The function `setXtraMinutes` keeps the core. -/
theorem sameCore_setXtraMinutes (env : Env) (s : State) :
    SameCore s (setXtraMinutes env s) := by
  unfold setXtraMinutes
  simp only []
  split_ifs
  · exact sameCore_emit _ _
  · exact sameCore_emit _ _
  · exact ⟨rfl, rfl, rfl, rfl, rfl⟩

/-- The function `processInput` keeps the core. -/
theorem sameCore_processInput (tbl : SunRiseSetTable) (env : Env) (s : State) :
    SameCore s (processInput tbl env s) := by
  unfold processInput
  simp only []
  split_ifs
  · exact sameCore_printHelp s
  · exact sameCore_printInfo tbl env s
  · exact sameCore_setTime env s
  · exact sameCore_setFixedOffTimeOffset env s
  · exact sameCore_setXtraMinutes env s
  · exact sameCore_emit _ _

/-- The periodic branch keeps the input buffer and its index. -/
theorem loopCheck_input (tbl : SunRiseSetTable) (env : Env) (s : State) :
    (loopCheck tbl env s).inputBuffer = s.inputBuffer ∧ (loopCheck tbl env s).ndx = s.ndx := by
  unfold loopCheck checkTemp checkLights
  simp only [toneTimes_eq]
  split_ifs <;> simp [lightsOff, lightsOn, timeNotSetNotice, digitalWrite, emit]

/-- The state after `setup` has the index in bounds and is not cooling off. -/
theorem setup_inv (oscStopped : Bool) (eeprom : Nat → Nat) :
    InputOk (setup oscStopped (initialState eeprom)) ∧
    (setup oscStopped (initialState eeprom)).coolingOff = false := by
  have hb : (setup oscStopped (initialState eeprom)).inputBuffer = (initialState eeprom).inputBuffer
      ∧ (setup oscStopped (initialState eeprom)).ndx = 0
      ∧ (setup oscStopped (initialState eeprom)).coolingOff = false := by
    unfold setup printHelp
    cases oscStopped <;> simp [lightsOff, digitalWrite, emit, initialState]
  obtain ⟨h1, h2, h3⟩ := hb
  have h0 := initialState_inputOk eeprom
  exact ⟨⟨by rw [h1]; exact h0.1, by rw [h2], by rw [h2]; simp⟩, h3⟩

/-- One pass of `loop` from a state with the index in bounds and the lights
off while cooling off: the pass completes, keeps both, and while cooling off
it leaves the lights off unless the reading of the pass is below 50. -/
theorem loop_inv (tbl : SunRiseSetTable) (e : LoopEnv) (s : State) (hok : InputOk s)
    (hinv : s.coolingOff = true → s.lightsPin = false) :
    ∃ s1, loop tbl e s = some s1 ∧ InputOk s1 ∧
      (s1.coolingOff = true → s1.lightsPin = false) ∧
      (s.coolingOff = true → s1.lightsPin = true → getTemp e.check < 50) := by
  obtain ⟨b, sr, rest, er, hokr, _⟩ := readInput_inputOk e.serial s hok
  obtain ⟨fc, fl, _, _, _, _⟩ := readInput_frame e.serial s sr b rest er
  have hcore : ∀ s2 : State, SameCore sr s2 →
      InputOk s2 ∧ s2.coolingOff = s.coolingOff ∧ s2.lightsPin = s.lightsPin := by
    intro s2 h
    obtain ⟨c1, c2, _, c4, c5⟩ := h
    exact ⟨⟨by rw [c4]; exact hokr.1, by rw [c5]; exact hokr.2.1, by rw [c5]; exact hokr.2.2⟩,
      c1.trans fc, c2.trans fl⟩
  have hstep : ∀ s2 : State, InputOk s2 → s2.coolingOff = s.coolingOff →
      s2.lightsPin = s.lightsPin →
      ∀ s1, (if s2.lastCheckMillis = 0
            ∨ (s2.nowMillis + 2 ^ 32 - s2.lastCheckMillis) % 2 ^ 32 ≥ CHECK_LIGHTS_SECONDS * 1000
          then some (loopCheck tbl e.check s2) else some s2) = some s1 →
        InputOk s1 ∧ (s1.coolingOff = true → s1.lightsPin = false) ∧
          (s.coolingOff = true → s1.lightsPin = true → getTemp e.check < 50) := by
    intro s2 hok2 hc2 hl2 s1 h1
    have hinv2 : s2.coolingOff = true → s2.lightsPin = false := by
      rw [hc2, hl2]; exact hinv
    split_ifs at h1
    · simp only [Option.some.injEq] at h1
      obtain ⟨i1, i2⟩ := loopCheck_input tbl e.check s2
      obtain ⟨k1, k2⟩ := loopCheck_cooling tbl e.check s2 hinv2
      rw [← h1]
      exact ⟨⟨by rw [i1]; exact hok2.1, by rw [i2]; exact hok2.2.1, by rw [i2]; exact hok2.2.2⟩,
        k1, fun hc => k2 (by rw [hc2]; exact hc)⟩
    · simp only [Option.some.injEq] at h1
      rw [← h1]
      refine ⟨hok2, hinv2, fun hc hl => ?_⟩
      rw [hl2, hinv hc] at hl
      exact absurd hl (by simp)
  cases b with
  | true =>
    have hc := hcore { processInput tbl e.input sr with lastCheckMillis := 0, nowMillis := e.millis % 2 ^ 32 }
      (by
        obtain ⟨c1, c2, c3, c4, c5⟩ := sameCore_processInput tbl e.input sr
        exact ⟨c1, c2, c3, c4, c5⟩)
    have hl : loop tbl e s = (if (0 : Nat) = 0
            ∨ (e.millis % 2 ^ 32 + 2 ^ 32 - 0) % 2 ^ 32 ≥ CHECK_LIGHTS_SECONDS * 1000
          then some (loopCheck tbl e.check
            { processInput tbl e.input sr with lastCheckMillis := 0, nowMillis := e.millis % 2 ^ 32 })
          else some
            { processInput tbl e.input sr with lastCheckMillis := 0, nowMillis := e.millis % 2 ^ 32 }) := by
      simp [loop, er]
    rw [if_pos (Or.inl rfl)] at hl
    have hs := hstep _ hc.1 hc.2.1 hc.2.2 (loopCheck tbl e.check
        { processInput tbl e.input sr with lastCheckMillis := 0, nowMillis := e.millis % 2 ^ 32 })
      (by rw [if_pos (Or.inl rfl)])
    exact ⟨_, hl, hs⟩
  | false =>
    have hc := hcore { sr with nowMillis := e.millis % 2 ^ 32 } ⟨rfl, rfl, rfl, rfl, rfl⟩
    have hl : loop tbl e s = (if sr.lastCheckMillis = 0
            ∨ (e.millis % 2 ^ 32 + 2 ^ 32 - sr.lastCheckMillis) % 2 ^ 32
                ≥ CHECK_LIGHTS_SECONDS * 1000
          then some (loopCheck tbl e.check { sr with nowMillis := e.millis % 2 ^ 32 })
          else some { sr with nowMillis := e.millis % 2 ^ 32 }) := by
      simp [loop, er]
    by_cases hcond : sr.lastCheckMillis = 0
        ∨ (e.millis % 2 ^ 32 + 2 ^ 32 - sr.lastCheckMillis) % 2 ^ 32 ≥ CHECK_LIGHTS_SECONDS * 1000
    · rw [if_pos hcond] at hl
      exact ⟨_, hl, hstep _ hc.1 hc.2.1 hc.2.2 _ (by rw [if_pos hcond])⟩
    · rw [if_neg hcond] at hl
      exact ⟨_, hl, hstep _ hc.1 hc.2.1 hc.2.2 _ (by rw [if_neg hcond])⟩

/-- Every reachable state has the index in bounds and the lights off while
cooling off. -/
theorem reachable_inv (tbl : SunRiseSetTable) (s : State) (h : Reachable tbl s) :
    InputOk s ∧ (s.coolingOff = true → s.lightsPin = false) := by
  induction h with
  | setup oscStopped eeprom =>
    obtain ⟨h1, h2⟩ := setup_inv oscStopped eeprom
    exact ⟨h1, fun hc => by rw [h2] at hc; simp at hc⟩
  | loop e s s1 _ hl ih =>
    obtain ⟨s2, e2, hok, hinv, _⟩ := loop_inv tbl e s ih.1 ih.2
    rw [e2] at hl
    simp only [Option.some.injEq] at hl
    rw [← hl]
    exact ⟨hok, hinv⟩

/-- C18 (amended): cooling implies lights off. In every state reachable from
`setup` by passes of `loop` (any characters, commands, temperatures and clock
values), `coolingOff` true implies `LIGHTS_PIN` low; from a reachable state
that is cooling off, a pass of `loop` leaves the lights on only when it ran
the check on a reading below 50 (once such a reading has cleared
`coolingOff`, later readings below 80 may switch the lights on); and every
pass from a reachable state completes. -/
theorem C18_cooling_implies_lights_off (tbl : SunRiseSetTable) :
    (∀ s : State, Reachable tbl s → s.coolingOff = true → s.lightsPin = false) ∧
    (∀ (s : State) (e : LoopEnv) (s1 : State), Reachable tbl s → s.coolingOff = true →
      loop tbl e s = some s1 → s1.lightsPin = true → getTemp e.check < 50) ∧
    (∀ (s : State) (e : LoopEnv), Reachable tbl s → ∃ s1, loop tbl e s = some s1) := by
  refine ⟨fun s h => (reachable_inv tbl s h).2, fun s e s1 h hc hl hon => ?_, fun s e h => ?_⟩
  · obtain ⟨hok, hinv⟩ := reachable_inv tbl s h
    obtain ⟨s2, e2, _, _, hlow⟩ := loop_inv tbl e s hok hinv
    rw [e2] at hl
    simp only [Option.some.injEq] at hl
    rw [← hl] at hon
    exact hlow hc hon
  · obtain ⟨hok, hinv⟩ := reachable_inv tbl s h
    obtain ⟨s2, e2, _⟩ := loop_inv tbl e s hok hinv
    exact ⟨s2, e2⟩

/-- C18 after `setup` and one pass at 85 degrees, 22:00: the state is cooling
off and the lights are off. -/
theorem C18_cooling_implies_lights_off_witness :
    ∃ s1, loop sampleTable
        { serial := [], input := sampleEnv 85 22 0, millis := 5, check := sampleEnv 85 22 0 }
        (setup false (initialState erasedEeprom)) = some s1 ∧
      s1.coolingOff = true ∧ s1.lightsPin = false := by
  obtain ⟨s1, e1⟩ := (C18_cooling_implies_lights_off sampleTable).2.2
    (setup false (initialState erasedEeprom))
    { serial := [], input := sampleEnv 85 22 0, millis := 5, check := sampleEnv 85 22 0 }
    (Reachable.setup false erasedEeprom)
  have hd : (loop sampleTable
      { serial := [], input := sampleEnv 85 22 0, millis := 5, check := sampleEnv 85 22 0 }
      (setup false (initialState erasedEeprom))).map (fun s => s.coolingOff) = some true := by
    decide
  rw [e1] at hd
  have hc : s1.coolingOff = true := by simpa using hd
  exact ⟨s1, e1, hc,
    (C18_cooling_implies_lights_off sampleTable).1 s1
      (Reachable.loop _ _ _ (Reachable.setup false erasedEeprom) e1) hc⟩

/-- Characters without newline in front of more characters: `readInput`
consumes them, keeps the in-progress line `pending` computes, and goes on
with the rest as a later call would. -/
theorem readInput_append (a : List Char) (s : State) (cur : List Char)
    (ha : ∀ c ∈ a, c ≠ '\n') (h : Spells s cur) :
    ∃ s1, readInput a s = some (false, s1, []) ∧ Spells s1 (pending cur a) ∧
      ∀ b : List Char, readInput (a ++ b) s = readInput b s1 := by
  induction a generalizing s cur with
  | nil => exact ⟨s, by simp [readInput], by simpa [pending] using h, fun b => by simp⟩
  | cons c t ih =>
    obtain ⟨s1, e, hs⟩ := readChar_spells c s cur (ha c (List.mem_cons_self _ _)) h
    obtain ⟨s2, e2, hs2, happ⟩ := ih s1 (pendingStep cur c)
      (fun x hx => ha x (List.mem_cons_of_mem _ hx)) hs
    refine ⟨s2, by simp [readInput, e, e2], by simpa [pending] using hs2, fun b => ?_⟩
    rw [List.cons_append]
    simp only [readInput, e]
    exact happ b

/-- Calls that find no character report nothing and change nothing. -/
theorem readInputReports_idle (calls : List (List Char)) (s : State)
    (h : ∀ a ∈ calls, a = []) :
    readInputReports calls s = some (List.replicate calls.length false, s) := by
  induction calls with
  | nil => rfl
  | cons a more ih =>
    have ha : a = [] := h a (List.mem_cons_self _ _)
    have hm := ih (fun x hx => h x (List.mem_cons_of_mem _ hx))
    rw [ha]
    simp [readInputReports, readInput, hm, List.replicate_succ]

/-- A line that arrives over successive calls, split in any way: the calls
hand off what one call on the whole line hands off, and exactly one of them,
the one that reads the newline, reports a line. -/
theorem readInputReports_line (calls : List (List Char)) (stream : List Char) (s : State)
    (cur : List Char) (hnl : ∀ c ∈ stream, c ≠ '\n') (h : Spells s cur)
    (hsplit : calls.flatten = stream ++ ['\n']) :
    ∃ reports s1, readInputReports calls s = some (reports, s1) ∧
      reports.count true = 1 ∧
      readInput (stream ++ ['\n']) s = some (true, s1, []) := by
  induction calls generalizing stream s cur with
  | nil =>
    have := congrArg List.length hsplit
    simp at this
  | cons chunk more ih =>
    rw [List.flatten_cons, List.append_eq_append_iff] at hsplit
    have hprefix : ∀ tail : List Char, stream = chunk ++ tail →
        more.flatten = tail ++ ['\n'] →
        ∃ reports s1, readInputReports (chunk :: more) s = some (reports, s1) ∧
          reports.count true = 1 ∧
          readInput (stream ++ ['\n']) s = some (true, s1, []) := by
      intro tail hst hmore
      have hchunk : ∀ c ∈ chunk, c ≠ '\n' :=
        fun c hc => hnl c (by rw [hst]; exact List.mem_append_left _ hc)
      have htail : ∀ c ∈ tail, c ≠ '\n' :=
        fun c hc => hnl c (by rw [hst]; exact List.mem_append_right _ hc)
      obtain ⟨s1, e1, hs1, happ⟩ := readInput_append chunk s cur hchunk h
      obtain ⟨reports, s2, er, hcount, hone⟩ := ih tail s1 (pending cur chunk) htail hs1 hmore
      refine ⟨false :: reports, s2, by simp [readInputReports, e1, er], by simpa using hcount, ?_⟩
      rw [hst, List.append_assoc, happ]
      exact hone
    rcases hsplit with ⟨tail, hst, hmore⟩ | ⟨extra, hchunk, hnlx⟩
    · exact hprefix tail hst hmore
    · cases extra with
      | nil =>
        exact hprefix [] (by simpa using hchunk.symm) (by simpa using hnlx.symm)
      | cons x xs =>
        have hx : x = '\n' ∧ xs = [] ∧ more.flatten = [] := by
          have h1 : '\n' :: [] = x :: (xs ++ more.flatten) := by simpa using hnlx
          simp only [List.cons.injEq] at h1
          have h2 : xs ++ more.flatten = [] := h1.2.symm
          rw [List.append_eq_nil] at h2
          exact ⟨h1.1.symm, h2.1, h2.2⟩
        obtain ⟨hx1, hx2, hx3⟩ := hx
        have hc : chunk = stream ++ ['\n'] := by rw [hchunk, hx1, hx2]
        obtain ⟨s1, e1, _⟩ := readInput_line stream [] s cur hnl h
        have hidle := readInputReports_idle more s1 (List.flatten_eq_nil_iff.mp hx3)
        refine ⟨true :: List.replicate more.length false, s1, ?_, ?_, e1⟩
        · rw [hc]
          simp [readInputReports, e1, hidle]
        · simp [List.count_cons, List.count_replicate]

/-- C11: bounded input buffer. From an empty in-progress line, n ordinary
characters (no carriage return, newline or 0x08) followed by a newline, split
in any way over successive calls of `readInput`, make exactly one call report
a completed line: the buffer then holds the first min(n,31) characters
followed by the terminating NUL (the C string is these characters when none
of them is NUL), and exactly n - 31 overflow notices have been emitted, none
when n <= 31. The same holds for one call that finds the whole line and more
characters behind the newline, which it leaves in `Serial`. -/
theorem C11_bounded_input (chars : List Char) (calls : List (List Char)) (s : State)
    (hlen : s.inputBuffer.length = MAX_INPUT_LEN + 1) (hndx : s.ndx = 0)
    (hord : ∀ c ∈ chars, c ≠ '\r' ∧ c ≠ '\n' ∧ c ≠ BACKSPACE)
    (hsplit : calls.flatten = chars ++ ['\n']) :
    (∃ reports s1, readInputReports calls s = some (reports, s1) ∧
      reports.count true = 1 ∧
      s1.inputBuffer.take (min chars.length 31 + 1) = chars.take 31 ++ [NUL] ∧
      ((∀ c ∈ chars, c ≠ NUL) → cstr s1.inputBuffer = chars.take 31) ∧
      overflowNotices s1.log = overflowNotices s.log + (chars.length - 31)) ∧
    (∀ rest : List Char,
      ∃ s1, readInput (chars ++ '\n' :: rest) s = some (true, s1, rest) ∧
        s1.inputBuffer.take (min chars.length 31 + 1) = chars.take 31 ++ [NUL] ∧
        ((∀ c ∈ chars, c ≠ NUL) → cstr s1.inputBuffer = chars.take 31) ∧
        overflowNotices s1.log = overflowNotices s.log + (chars.length - 31)) := by
  refine ⟨?_, fun rest => readInput_bounded_line chars rest s hlen hndx hord⟩
  obtain ⟨reports, s1, er, hcount, hone⟩ := readInputReports_line calls chars s []
    (fun c hc => (hord c hc).2.1) (spells_nil s hlen hndx) hsplit
  obtain ⟨s2, e2, h2⟩ := readInput_bounded_line chars [] s hlen hndx hord
  rw [hone] at e2
  simp only [Option.some.injEq, Prod.mk.injEq, true_and, and_true] at e2
  rw [← e2] at h2
  exact ⟨reports, s1, er, hcount, h2⟩

/-- C11 with n = 40, the line arriving as 25 characters, then nothing, then
15 characters and the newline: one call reports the line, which is the first
31 characters, and 9 overflow notices are emitted. -/
theorem C11_bounded_input_witness :
    ∃ reports s1,
      readInputReports
          ["0123456789012345678901234".toList, [], "567890123456789".toList ++ ['\n']]
          (initialState erasedEeprom) = some (reports, s1) ∧
      reports.count true = 1 ∧
      s1.inputBuffer.take (min 40 31 + 1)
        = "0123456789012345678901234567890".toList ++ [NUL] ∧
      ((∀ c ∈ "0123456789012345678901234567890123456789".toList, c ≠ NUL) →
        cstr s1.inputBuffer = "0123456789012345678901234567890".toList) ∧
      overflowNotices s1.log = overflowNotices (initialState erasedEeprom).log + (40 - 31) :=
  (C11_bounded_input "0123456789012345678901234567890123456789".toList
    ["0123456789012345678901234".toList, [], "567890123456789".toList ++ ['\n']]
    (initialState erasedEeprom) (by decide) (by decide) (by decide) (by decide)).1

/-- C12: line assembly. For a character stream up to its first newline, split
in any way over successive calls of `readInput` and fed to a state whose
in-progress line is empty or canceled by the stream, exactly one call reports
a line, and the line handed off is the one the stream spells: the part after
the last cancel character, without carriage returns, cut to 31 characters,
followed by the terminating NUL (the C string is that line when the stream
holds no NUL). The same holds for one call that finds the whole stream and
more characters behind the newline. Carriage returns do not change the line
and a cancel discards what precedes it. -/
theorem C12_line_assembly (stream : List Char) (calls : List (List Char)) (s : State)
    (hok : InputOk s) (hstart : s.ndx = 0 ∨ BACKSPACE ∈ stream)
    (hnl : ∀ c ∈ stream, c ≠ '\n') (hsplit : calls.flatten = stream ++ ['\n']) :
    (∃ reports s1, readInputReports calls s = some (reports, s1) ∧
      reports.count true = 1 ∧
      s1.inputBuffer.take ((spelledLine stream).length + 1) = spelledLine stream ++ [NUL] ∧
      ((∀ c ∈ stream, c ≠ NUL) → cstr s1.inputBuffer = spelledLine stream)) ∧
    (∀ rest : List Char,
      ∃ s1, readInput (stream ++ '\n' :: rest) s = some (true, s1, rest) ∧
        s1.inputBuffer.take ((spelledLine stream).length + 1) = spelledLine stream ++ [NUL] ∧
        ((∀ c ∈ stream, c ≠ NUL) → cstr s1.inputBuffer = spelledLine stream)) ∧
    spelledLine (stream.filter (fun c => c ≠ '\r')) = spelledLine stream ∧
    (∀ pre : List Char, spelledLine (pre ++ BACKSPACE :: stream) = spelledLine stream) := by
  have hone := readInput_spelled_line stream [] s hok hstart hnl
  refine ⟨?_, fun rest => (readInput_spelled_line stream rest s hok hstart hnl).1,
    hone.2.1, hone.2.2⟩
  obtain ⟨reports, s1, er, hcount, hline⟩ := readInputReports_line calls stream s _
    hnl (spells_of_inputOk s hok) hsplit
  obtain ⟨s2, e2, h2⟩ := hone.1
  rw [hline] at e2
  simp only [Option.some.injEq, Prod.mk.injEq, true_and, and_true] at e2
  rw [← e2] at h2
  exact ⟨reports, s1, er, hcount, h2⟩

/-- C12 on the stream `ab`, cancel, `cd`, carriage return, `e`, arriving as
`ab`, then cancel and `c`, then `d`, carriage return, `e` and the newline: the
line is `cde`. -/
theorem C12_line_assembly_witness :
    spelledLine ['a', 'b', BACKSPACE, 'c', 'd', '\r', 'e'] = ['c', 'd', 'e'] ∧
    ∃ reports s1,
      readInputReports [['a', 'b'], [BACKSPACE, 'c'], ['d', '\r', 'e', '\n']]
          (initialState erasedEeprom) = some (reports, s1) ∧
      reports.count true = 1 ∧
      s1.inputBuffer.take ((spelledLine ['a', 'b', BACKSPACE, 'c', 'd', '\r', 'e']).length + 1)
        = spelledLine ['a', 'b', BACKSPACE, 'c', 'd', '\r', 'e'] ++ [NUL] ∧
      ((∀ c ∈ ['a', 'b', BACKSPACE, 'c', 'd', '\r', 'e'], c ≠ NUL) →
        cstr s1.inputBuffer = spelledLine ['a', 'b', BACKSPACE, 'c', 'd', '\r', 'e']) :=
  ⟨by decide,
    (C12_line_assembly ['a', 'b', BACKSPACE, 'c', 'd', '\r', 'e']
      [['a', 'b'], [BACKSPACE, 'c'], ['d', '\r', 'e', '\n']]
      (initialState erasedEeprom) ⟨by decide, by decide, by decide⟩ (by decide) (by decide)
      (by decide)).1⟩

/-- Passes of `loop` from a reachable state end in a reachable state. -/
theorem reachable_loopRun (tbl : SunRiseSetTable) (envs : List LoopEnv) (s s1 : State)
    (h : Reachable tbl s) (e : loopRun tbl envs s = some s1) : Reachable tbl s1 := by
  induction envs generalizing s with
  | nil =>
    simp only [loopRun, Option.some.injEq] at e
    rw [← e]
    exact h
  | cons env more ih =>
    unfold loopRun at e
    cases hl : loop tbl env s with
    | none => simp [hl] at e
    | some s2 =>
      simp only [hl] at e
      exact ih s2 (Reachable.loop env s s2 h hl) e

/-- One more pass after a run of passes. -/
theorem loopRun_snoc (tbl : SunRiseSetTable) (envs : List LoopEnv) (env : LoopEnv)
    (s s1 : State) (e : loopRun tbl envs s = some s1) :
    loopRun tbl (envs ++ [env]) s = loop tbl env s1 := by
  induction envs generalizing s with
  | nil =>
    simp only [loopRun, Option.some.injEq] at e
    rw [e]
    simp only [List.nil_append, loopRun]
    cases loop tbl env s1 <;> rfl
  | cons e0 more ih =>
    unfold loopRun at e
    cases hl : loop tbl e0 s with
    | none => simp [hl] at e
    | some s2 =>
      simp only [hl] at e
      simp only [List.cons_append, loopRun, hl]
      exact ih s2 e

/-- C18 as stated fails in its second sentence. After `setup` over an EEPROM
without extra minutes and override, on the sample table (06:30, 19:45): a pass
at 85 degrees shuts down (cooling off, lights off); a pass at 45 degrees at
12:00 clears `coolingOff` and leaves the lights off, inside the window; a pass
at 60 degrees at 22:00 switches the lights on again, in a tick whose reading
is not below 50. So there is a reachable state with the lights off from which
a pass with reading 60 ends with the lights on. -/
theorem C18_counterexample :
    getTemp (samplePass 121000 60 22 0).check = 60 ∧
    (loopRun sampleTable [samplePass 1000 85 12 0]
        (setup false (initialState plainEeprom))).map (fun s => (s.coolingOff, s.lightsPin))
      = some (true, false) ∧
    (loopRun sampleTable [samplePass 1000 85 12 0, samplePass 61000 45 12 0]
        (setup false (initialState plainEeprom))).map (fun s => (s.coolingOff, s.lightsPin))
      = some (false, false) ∧
    (loopRun sampleTable
        [samplePass 1000 85 12 0, samplePass 61000 45 12 0, samplePass 121000 60 22 0]
        (setup false (initialState plainEeprom))).map (fun s => (s.coolingOff, s.lightsPin))
      = some (false, true) ∧
    ∃ s2 s3, Reachable sampleTable s2 ∧ s2.lightsPin = false ∧
      loop sampleTable (samplePass 121000 60 22 0) s2 = some s3 ∧ s3.lightsPin = true ∧
      ¬ getTemp (samplePass 121000 60 22 0).check < 50 := by
  have h2 : (loopRun sampleTable [samplePass 1000 85 12 0, samplePass 61000 45 12 0]
        (setup false (initialState plainEeprom))).map (fun s => (s.coolingOff, s.lightsPin))
      = some (false, false) := by decide
  have h3 : (loopRun sampleTable
        ([samplePass 1000 85 12 0, samplePass 61000 45 12 0] ++ [samplePass 121000 60 22 0])
        (setup false (initialState plainEeprom))).map (fun s => (s.coolingOff, s.lightsPin))
      = some (false, true) := by decide
  refine ⟨by decide, by decide, h2, h3, ?_⟩
  cases hr : loopRun sampleTable [samplePass 1000 85 12 0, samplePass 61000 45 12 0]
      (setup false (initialState plainEeprom)) with
  | none => simp [hr] at h2
  | some s2 =>
    rw [hr] at h2
    rw [loopRun_snoc sampleTable _ _ _ s2 hr] at h3
    cases hl : loop sampleTable (samplePass 121000 60 22 0) s2 with
    | none => simp [hl] at h3
    | some s3 =>
      rw [hl] at h3
      simp only [Option.map_some', Option.some.injEq, Prod.mk.injEq] at h2 h3
      exact ⟨s2, s3, reachable_loopRun sampleTable _ _ s2 (Reachable.setup false plainEeprom) hr,
        h2.2, hl, h3.2, by decide⟩

end GardenLights
